import Mathlib

/-!
Bookmarks plugin: bookmark and label stores

A shallow embedding of `server/kv_bookmarks.go`, `server/bookmarks.go` and
`server/labels.go`, followed by theorems about the embedded functions.

Modelling conventions

* A Go `map[string]*V` is an association list with pairwise distinct keys
  (`GoMap V`).  `m[k] = v` is `AList.insert`, `delete(m, k)` is `AList.erase`,
  `m[k]` is `AList.lookup`, a mutation through the pointer stored under `k` is
  `AList.replace`, and `range m` visits `m.entries` in list order (Go leaves the
  order unspecified; theorems quantify over every list, hence over every order).
* A Go result pair `(*T, error)` is `Ret.ret val err` with both components
  optional (`none` is `nil`); a run-time panic is `Ret.crash`.
* An `error` is represented by its message.
* The plugin API (`KVGet`, `KVSet`, `GetPost`, `model.GetMillis`, the UUID source) is the
  explicit state `World`, threaded through every function that uses it.
* `json.Marshal` followed by `json.Unmarshal` is the identity on the values of
  these types (the `labels:omitempty` tag has no comma, so it is a plain key
  name and a nil slice is written as `null`): a stored value is a `Blob`
  carrying the collection itself.
-/

namespace BookmarksPlugin

/-- A Go `map[string]*V`. -/
abbrev GoMap (V : Type) := AList (fun _ : String => V)

/-- The result of a Go function returning `(*T, error)`, or a run-time panic. -/
inductive Ret (α : Type) where
  | ret (val : Option α) (err : Option String)
  | crash
deriving DecidableEq

/-! ## kv_bookmarks.go -/

/-- Bookmark contains information about an individual bookmark.
`LabelIDs = none` is the nil slice. -/
structure Bookmark where
  PostID : String
  Title : String := ""
  CreateAt : Int := 0
  ModifiedAt : Int := 0
  LabelIDs : Option (List String) := none
deriving DecidableEq

/-- Bookmarks contains a map of bookmarks. -/
structure Bookmarks where
  ByID : GoMap Bookmark
deriving DecidableEq

/-- Label: a named tag.  Modelled from the spec: the declaration of the type is
not among the sources; the tests build `Label{Name, ID}`. -/
structure Label where
  Name : String
  ID : String := ""
deriving DecidableEq

/-- Labels: the label collection of one user.  Modelled from the spec: the
declaration of the type is not among the sources; `labels.go` uses its fields
`ByID` and `userID` (the `api` handle is the `World`). -/
structure Labels where
  ByID : GoMap Label
  userID : String
deriving DecidableEq

/-- What a key of the KV store holds: the JSON written by `storeBookmarks`, the
JSON written by `storeLabels`, or any other bytes (which fail to decode). -/
inductive Blob where
  | bookmarks (b : Bookmarks)
  | labels (byID : GoMap Label)
  | raw (bytes : String)
deriving DecidableEq

/-- The plugin API seen by the stores. -/
structure World where
  /-- contents of the KV store -/
  kv : String → Option Blob := fun _ => none
  /-- the AppError of `KVGet key`, when the read fails -/
  getErr : String → Option String := fun _ => none
  /-- the AppError of `KVSet key _`, when the write fails -/
  setErr : String → Option String := fun _ => none
  /-- every `KVSet` call made so far, latest first -/
  writes : List (String × Blob) := []
  /-- the successive readings of `model.GetMillis` -/
  clock : Nat → Int := fun _ => 0
  /-- number of clock readings taken so far -/
  reads : Nat := 0
  /-- the successive values of `uuid.NewRandom` -/
  uuid : Nat → List Nat := fun _ => []
  /-- number of UUIDs drawn so far -/
  ids : Nat := 0
  /-- the answer of `GetPost postID`: an AppError, or the `CreateAt` of the post -/
  posts : String → Except String Int := fun _ => .ok 0

/-- `API.KVGet`: an AppError, or the stored bytes (`none` when the key is unset). -/
def World.KVGet (w : World) (key : String) : Except String (Option Blob) :=
  match w.getErr key with
  | some appErr => .error appErr
  | none => .ok (w.kv key)

/-- `API.KVSet`: the call is logged; on success the key holds the new value,
on failure the store is left as it was. -/
def World.KVSet (w : World) (key : String) (value : Blob) : Option String × World :=
  match w.setErr key with
  | some appErr => (some appErr, { w with writes := (key, value) :: w.writes })
  | none =>
    (none, { w with
      kv := fun k => if k = key then some value else w.kv k
      writes := (key, value) :: w.writes })

/-- `model.GetMillis`: the next clock reading. -/
def World.GetMillis (w : World) : Int × World :=
  (w.clock w.reads, { w with reads := w.reads + 1 })

/-- `API.GetPost`, reduced to what ByPostCreateAt reads: `post.CreateAt`. -/
def World.GetPost (w : World) (postID : String) : Except String Int :=
  w.posts postID

/-- NewBookmarks returns an initialized Bookmarks struct. -/
def NewBookmarks : Bookmarks := ⟨∅⟩

/-- `b.ByID[bmark.PostID] = bmark` -/
def Bookmarks.add (b : Bookmarks) (bmark : Bookmark) : Bookmarks :=
  ⟨b.ByID.insert bmark.PostID bmark⟩

/-- `return b.ByID[bmarkID]` (`none` is the nil pointer). -/
def Bookmarks.get (b : Bookmarks) (bmarkID : String) : Option Bookmark :=
  b.ByID.lookup bmarkID

/-- `delete(b.ByID, bmarkID)` -/
def Bookmarks.delete (b : Bookmarks) (bmarkID : String) : Bookmarks :=
  ⟨b.ByID.erase bmarkID⟩

/-- The comma-ok lookup of `exists`. -/
def Bookmarks.exists (b : Bookmarks) (bmarkID : String) : Option Bookmark × Bool :=
  match b.ByID.lookup bmarkID with
  | some bmark => (some bmark, true)
  | none => (none, false)

/-- updateTimes: stamps the bookmark stored under `bmarkID` through its pointer.
`none` is the nil-pointer panic of `bmark.CreateAt` when the key is absent.
The returned pointer is the updated entry of the collection. -/
def Bookmarks.updateTimes (b : Bookmarks) (w : World) (bmarkID : String) :
    Option (Bookmarks × World) :=
  match b.get bmarkID with
  | none => none
  | some bmark =>
    let r1 : Bookmark × World :=
      if bmark.CreateAt = 0 then
        let t := w.GetMillis
        ({ bmark with CreateAt := t.1, ModifiedAt := t.1 }, t.2)
      else (bmark, w)
    let t := r1.2.GetMillis
    some (⟨b.ByID.replace bmarkID { r1.1 with ModifiedAt := t.1 }⟩, t.2)

/-- updateLabels: `bmarkOrig.LabelIDs = bmark.LabelIDs` through the stored pointer.
`none` is the nil-pointer panic when the key is absent. -/
def Bookmarks.updateLabels (b : Bookmarks) (bmark : Bookmark) : Option Bookmarks :=
  match b.get bmark.PostID with
  | none => none
  | some bmarkOrig =>
    some ⟨b.ByID.replace bmark.PostID { bmarkOrig with LabelIDs := bmark.LabelIDs }⟩

/-- hasUserTitle -/
def Bookmark.hasUserTitle (bmark : Bookmark) : Bool :=
  if bmark.Title ≠ "" then true else false

/-- hasLabels -/
def Bookmark.hasLabels (bmark : Bookmark) : Bool :=
  if bmark.LabelIDs ≠ none then true else false

/-! ## bookmarks.go -/

/-- StoreBookmarksKey is the key used to store bookmarks in the plugin KV store. -/
def StoreBookmarksKey : String := "bookmarks"

/-- `fmt.Sprintf("%s_%s", StoreBookmarksKey, userID)` -/
def getBookmarksKey (userID : String) : String :=
  StoreBookmarksKey ++ "_" ++ userID

/-- storeBookmarks stores all the users bookmarks. -/
def storeBookmarks (w : World) (userID : String) (bmarks : Bookmarks) :
    Option String × World :=
  let key := getBookmarksKey userID
  match w.KVSet key (Blob.bookmarks bmarks) with
  | (some appErr, w1) => (some appErr, w1)
  | (none, w1) => (none, w1)

/-- `json.Unmarshal(bb, &bmarks)` -/
def unmarshalBookmarks : Blob → Except String Bookmarks
  | .bookmarks b => .ok b
  | _ => .error "json: cannot unmarshal into Bookmarks"

/-- getBookmarks returns a users bookmarks.  If the user has no bookmarks,
return nil bookmarks. -/
def getBookmarks (w : World) (userID : String) : Option Bookmarks × Option String :=
  match w.KVGet (getBookmarksKey userID) with
  | .error appErr => (none, some appErr)
  | .ok none => (none, none)
  | .ok (some bb) =>
    match unmarshalBookmarks bb with
    | .error jsonErr => (none, some jsonErr)
    | .ok bmarks => (some bmarks, none)

/-- The loop `for _, bmark := range bmarks.ByID` of getBookmark: the first
visited bookmark whose `PostID` field is `bmarkID`. -/
def findByPostID (bmarkID : String) :
    List (Sigma fun _ : String => Bookmark) → Option Bookmark
  | [] => none
  | e :: rest => if e.2.PostID = bmarkID then some e.2 else findByPostID bmarkID rest

/-- getBookmark returns a bookmark with the specified bookmarkID. -/
def getBookmark (w : World) (userID bmarkID : String) : Ret Bookmark :=
  match getBookmarks w userID with
  | (_, some err) => .ret none (some err)
  | (none, none) =>
    -- `bmarks.exists(bmarkID)` reads `b.ByID` through the nil receiver
    .crash
  | (some bmarks, none) =>
    match bmarks.exists bmarkID with
    | (_, false) => .ret none (some ("Bookmark `" ++ bmarkID ++ "` does not exist"))
    | (_, true) =>
      match findByPostID bmarkID bmarks.ByID.entries with
      | some bmark => .ret (some bmark) none
      | none => .ret none none

/-- addBookmark stores the bookmark in a map. -/
def addBookmark (w : World) (userID : String) (bmark : Bookmark) :
    Ret Bookmarks × World :=
  -- get all bookmarks for user
  match getBookmarks w userID with
  | (_, some err) => (.ret none (some err), w)
  | (stored, none) =>
    -- no marks, initialize the store first
    let bmarks := match stored with
      | none => NewBookmarks
      | some b => b
    -- user doesn't have any bookmarks add first bookmark and return
    if bmarks.ByID.entries.length = 0 then
      let bmarks := bmarks.add bmark
      match storeBookmarks w userID bmarks with
      | (some err, w1) => (.ret none (some err), w1)
      | (none, w1) => (.ret (some bmarks) none, w1)
    else
      -- bookmark already exists, update ModifiedAt and save
      match bmarks.exists bmark.PostID with
      | (_, true) =>
        match bmarks.updateTimes w bmark.PostID with
        | none => (.crash, w)
        | some (bmarks, w1) =>
          match bmarks.updateLabels bmark with
          | none => (.crash, w1)
          | some bmarks =>
            match storeBookmarks w1 userID bmarks with
            | (some err, w2) => (.ret none (some err), w2)
            | (none, w2) => (.ret (some bmarks) none, w2)
      | (_, false) =>
        -- bookmark doesn't exist. Add it
        let bmarks := bmarks.add bmark
        match storeBookmarks w userID bmarks with
        | (some err, w1) => (.ret none (some err), w1)
        | (none, w1) => (.ret (some bmarks) none, w1)

/-- deleteBookmark deletes a bookmark from the store. -/
def deleteBookmark (w : World) (userID bmarkID : String) : Ret Bookmark × World :=
  match getBookmarks w userID with
  | (_, some err) => (.ret none (some err), w)
  | (none, none) => (.ret none (some "User doesn't have any bookmarks"), w)
  | (some bmarks, none) =>
    match bmarks.exists bmarkID with
    | (_, false) => (.ret none (some ("Bookmark `" ++ bmarkID ++ "` does not exist")), w)
    | (_, true) =>
      let bmark := bmarks.get bmarkID
      let bmarks := bmarks.delete bmarkID
      -- the error of storeBookmarks is dropped
      let w1 := (storeBookmarks w userID bmarks).2
      (.ret bmark none, w1)

/-! ## labels.go -/

/-- StoreLabelsKey is the key used to store labels in the plugin KV store. -/
def StoreLabelsKey : String := "labels"

/-- `fmt.Sprintf("%s_%s", StoreLabelsKey, userID)` -/
def getLabelsKey (userID : String) : String :=
  StoreLabelsKey ++ "_" ++ userID

/-- The alphabet of `encoding = base32.NewEncoding(...)`. -/
def encodeStd : List Char := "ybndrfg8ejkmcpqxot1uwisza345h769".data

/-- `enc.encode[i & 31]` -/
def encodeChar (i : Nat) : Char := encodeStd.getD (i % 32) '='

/-- The eight 5-bit blocks that `base32.Encode` unpacks from one quantum of at
most five bytes (missing bytes leave their bits zero).  On bytes, `x >> k` is
`x / 2 ^ k`, `(x << k) & 0x1F` is `(x * 2 ^ k) % 32`, and the `|=` of the source
joins disjoint bit fields, written `+`. -/
def quantumBlocks (src : List Nat) : List Nat :=
  let s0 := src.getD 0 0
  let s1 := src.getD 1 0
  let s2 := src.getD 2 0
  let s3 := src.getD 3 0
  let s4 := src.getD 4 0
  [ s0 / 8,
    (s0 * 4) % 32 + (s1 / 64) % 32,
    (s1 / 2) % 32,
    (s1 * 16) % 32 + (s2 / 16) % 32,
    (s2 * 2) % 32 + s3 / 128,
    (s3 / 4) % 32,
    (s3 * 8) % 32 + s4 / 32,
    s4 % 32 ]

/-- Number of alphabet characters of a final quantum of `n` bytes; the rest of
its eight characters is the padding character. -/
def quantumChars (n : Nat) : Nat :=
  if n < 2 then 2 else if n < 3 then 4 else if n < 4 then 5 else if n < 5 then 7 else 8

/-- One quantum of `base32.Encode` with `StdPadding`. -/
def encodeQuantum (src : List Nat) : List Char :=
  ((quantumBlocks src).take (quantumChars src.length)).map encodeChar
    ++ List.replicate (8 - quantumChars src.length) '='

/-- `base32.Encode` over the whole input (what the streaming encoder has
written once it is closed): full quanta of five bytes, then the final quantum
of one to four bytes, if any. -/
def base32Encode : List Nat → List Char
  | [] => []
  | s0 :: s1 :: s2 :: s3 :: s4 :: rest =>
    encodeQuantum [s0, s1, s2, s3, s4] ++ base32Encode rest
  | src => encodeQuantum src

/-- NewID: the base-32 encoding of the UUID bytes, truncated to 26 characters.
`none` is the panic of `b.Truncate(26)` on a buffer shorter than 26 bytes (the
nil UUID that `uuid.NewRandom` returns when the entropy source fails). -/
def NewID (uuid : List Nat) : Option String :=
  let b := base32Encode uuid
  if b.length < 26 then none else some (String.mk (b.take 26))

/-- `uuid.NewRandom()` followed by NewID. -/
def World.NewID (w : World) : Option String × World :=
  (BookmarksPlugin.NewID (w.uuid w.ids), { w with ids := w.ids + 1 })

/-- storeLabels stores all the users labels. -/
def storeLabels (w : World) (l : Labels) : Option String × World :=
  let key := getLabelsKey l.userID
  match w.KVSet key (Blob.labels l.ByID) with
  | (some appErr, w1) => (some appErr, w1)
  | (none, w1) => (none, w1)

/-- Modelled from the spec: `Labels.add` is not among the sources; addLabel
"inserts `{id, name}`" into the mapping from id to Label. -/
def Labels.add (l : Labels) (id : String) (label : Label) : Labels :=
  { l with ByID := l.ByID.insert id { label with ID := id } }

/-- The loop of getLabelByName: the first visited label named `labelName`. -/
def findLabelByName (labelName : String) :
    List (Sigma fun _ : String => Label) → Option Label
  | [] => none
  | e :: rest => if e.2.Name = labelName then some e.2 else findLabelByName labelName rest

/-- getLabelByName returns a label with the provided label name. -/
def Labels.getLabelByName (l : Labels) (labelName : String) : Option Label :=
  findLabelByName labelName l.ByID.entries

/-- addLabel stores a label into the users label store.  The result is the
returned pair, the receiver after the call, and the world after the call. -/
def Labels.addLabel (w : World) (l : Labels) (labelName : String) :
    Ret Labels × Labels × World :=
  -- check if name already exists
  match l.getLabelByName labelName with
  | some label =>
    -- User already has label with this labelName
    (.ret none (some ("Label with name `" ++ label.Name ++ "` already exists")), l, w)
  | none =>
    match w.NewID with
    | (none, w1) => (.crash, l, w1)
    | (some labelID, w1) =>
      let label : Label := { Name := labelName }
      let l := l.add labelID label
      match storeLabels w1 l with
      | (some err, w2) => (.ret none (some err), l, w2)
      | (none, w2) => (.ret (some l) none, l, w2)

/-- `json.Unmarshal(bb, &labels)` into a nil `*Labels`: the unexported fields
`api` and `userID` are not part of the JSON and stay zero. -/
def unmarshalLabels : Blob → Except String Labels
  | .labels byID => .ok { ByID := byID, userID := "" }
  | _ => .error "json: cannot unmarshal into Labels"

/-- getLabelsForUser returns a users labels (nil when nothing is stored). -/
def getLabelsForUser (w : World) (userID : String) : Option Labels × Option String :=
  match w.KVGet (getLabelsKey userID) with
  | .error appErr => (none, some appErr)
  | .ok none => (none, none)
  | .ok (some bb) =>
    match unmarshalLabels bb with
    | .error jsonErr => (none, some jsonErr)
    | .ok labels => (some labels, none)

/-- Modelled from the spec: `Labels.get` is not among the sources;
`resolveIDToName` is the "inverse lookup; fails with `NotFound` if the ID is
unknown". -/
def Labels.get (l : Labels) (id : String) : Option Label × Option String :=
  match l.ByID.lookup id with
  | some label => (some label, none)
  | none => (none, some ("Label: `" ++ id ++ "` does not exist"))

/-- getNameFromID returns the Name of a Label. -/
def Labels.getNameFromID (l : Labels) (id : String) : String × Option String :=
  match l.get id with
  | (_, some err) => ("", some err)
  | (none, none) => ("", none)
  | (some label, none) => (label.Name, none)

/-- The loop of getIDFromName: the key of the first visited label named
`labelName`. -/
def findIDByName (labelName : String) :
    List (Sigma fun _ : String => Label) → Option String
  | [] => none
  | e :: rest => if e.2.Name = labelName then some e.1 else findIDByName labelName rest

/-- getIDFromName returns a label name with the corresponding label ID.  The
receiver may be the nil pointer. -/
def getIDFromName (l : Option Labels) (labelName : String) : String × Option String :=
  match l with
  | none => ("", some "user does not have any labels")
  | some l =>
    -- return the labelId if found
    match findIDByName labelName l.ByID.entries with
    | some id => (id, none)
    | none => ("", some ("Label: `" ++ labelName ++ "` does not exist"))

/-- Modelled from the spec: `Labels.delete` is not among the sources;
deleteLabel "removes the entry if present (no error if absent)". -/
def Labels.delete (l : Labels) (id : String) : Labels :=
  { l with ByID := l.ByID.erase id }

/-- deleteByID deletes a label from the store.  The result is the returned
error, the receiver after the call, and the world after the call. -/
def Labels.deleteByID (w : World) (l : Labels) (labelID : String) :
    Option String × Labels × World :=
  let l := l.delete labelID
  match storeLabels w l with
  | (some err, w1) => (some err, l, w1)
  | (none, w1) => (none, l, w1)

/-- The loop over the names in getLabelIDsFromNames. -/
def resolveNames (labels : Option Labels) : List String → Option (List String) × Option String
  | [] => (some [], none)
  | name :: rest =>
    match getIDFromName labels name with
    | (_, some err) => (none, some err)
    | (id, none) =>
      match resolveNames labels rest with
      | (some ids, none) => (some (id :: ids), none)
      | other => (none, other.2)

/-- Modelled from the spec: getLabelIDsFromNames is not among the sources;
listByLabelName "resolves `labelName` to an ID via the Label Store (fails with
whatever error the Label Store raises if resolution fails)", and resolveNameToID
"fails with `NotFound` if absent; fails with `NoLabels` if the user has no
collection at all".  A failure returns the nil slice with the error. -/
def getLabelIDsFromNames (w : World) (userID : String) (labelNames : List String) :
    Option (List String) × Option String :=
  match getLabelsForUser w userID with
  | (_, some err) => (none, some err)
  | (labels, none) => resolveNames labels labelNames

/-! ## bookmarks.go, the functions that use the labels and the posts -/

/-- The first loop of ByPostCreateAt: `tempMap[post.CreateAt] = bmark.PostID`
for each visited bookmark, or the first AppError of `GetPost`. -/
def buildTempMap (w : World) :
    List (Sigma fun _ : String => Bookmark) → AList (fun _ : Int => String) →
      Except String (AList (fun _ : Int => String))
  | [], tempMap => .ok tempMap
  | e :: rest, tempMap =>
    match w.GetPost e.2.PostID with
    | .error appErr => .error appErr
    | .ok createAt => buildTempMap w rest (tempMap.insert createAt e.2.PostID)

/-- ByPostCreateAt returns an array of bookmarks sorted by post.CreateAt times.
The argument may be the nil pointer, whose `bmarks.ByID` panics.  The returned
slice is a list of pointers (the nil slice is the empty list); `int` has 64
bits, so `int(k)` and `int64(k)` change nothing; `sort.Ints` is any sort of the
keys, which are pairwise distinct. -/
def ByPostCreateAt (w : World) (bmarks : Option Bookmarks) : Ret (List (Option Bookmark)) :=
  match bmarks with
  | none => .crash
  | some bmarks =>
    -- build temp map
    match buildTempMap w bmarks.ByID.entries ∅ with
    | .error appErr => .ret none (some appErr)
    | .ok tempMap =>
      -- sort post.CreateAt (keys)
      let keys := tempMap.keys.insertionSort (fun a b => a ≤ b)
      -- reconstruct the bookmarks in a sorted array
      .ret (some (keys.map fun k => bmarks.ByID.lookup ((tempMap.lookup k).getD ""))) none

/-- The inner loop of getBookmarksWithLabel over `bmark.LabelIDs`. -/
def addIfLabelled (labelID : String) (bmark : Bookmark) :
    List String → Bookmarks → Bookmarks
  | [], acc => acc
  | id :: rest, acc =>
    addIfLabelled labelID bmark rest (if labelID = id then acc.add bmark else acc)

/-- The outer loop of getBookmarksWithLabel over `bmarks.ByID`. -/
def filterByLabel (labelID : String) :
    List (Sigma fun _ : String => Bookmark) → Bookmarks → Bookmarks
  | [], acc => acc
  | e :: rest, acc =>
    filterByLabel labelID rest
      (if e.2.hasLabels then addIfLabelled labelID e.2 (e.2.LabelIDs.getD []) acc else acc)

/-- getBookmarksWithLabel return a Bookmarks with bookmarks that contains given
label specified by labelName.  The error of getLabelIDsFromNames is assigned
and never read; `labelIDs[0]` panics on an empty slice. -/
def getBookmarksWithLabel (w : World) (userID labelName : String) : Ret Bookmarks :=
  match getBookmarks w userID with
  | (_, some err) => .ret none (some err)
  | (none, none) => .ret none none
  | (some bmarks, none) =>
    let bmarksWithLabel := NewBookmarks
    match (getLabelIDsFromNames w userID [labelName]).1.getD [] with
    | [] => .crash
    | labelID :: _ => .ret (some (filterByLabel labelID bmarks.ByID.entries bmarksWithLabel)) none

/-! ## Auxiliary definitions used to state the theorems -/

/-- The world after a successful `KVSet key value`. -/
def World.written (w : World) (key : String) (value : Blob) : World :=
  { w with
    kv := fun k => if k = key then some value else w.kv k
    writes := (key, value) :: w.writes }

/-- The bookmark that the update path of addBookmark leaves under the key of
the stored bookmark `e`: two clock readings when `e.CreateAt` is zero, one
otherwise. -/
def restamp (w : World) (e : Bookmark) (labels : Option (List String)) : Bookmark :=
  { PostID := e.PostID
    Title := e.Title
    CreateAt := if e.CreateAt = 0 then w.clock w.reads else e.CreateAt
    ModifiedAt := if e.CreateAt = 0 then w.clock (w.reads + 1) else w.clock w.reads
    LabelIDs := labels }

/-- The names of the labels of a collection, in map order. -/
def Labels.names (l : Labels) : List String :=
  l.ByID.entries.map fun e => e.2.Name

/-- The bookmark persisted for `userID` under `postID`, as getBookmarks reads it back. -/
def storedBookmark (w : World) (userID postID : String) : Option Bookmark :=
  match (getBookmarks w userID).1 with
  | some bmarks => bmarks.get postID
  | none => none

/-- The world in which the entry `k` of the KV store is set to `v` (unset when
`v = none`), everything else as in `w`. -/
def World.setKV (w : World) (k : String) (v : Option Blob) : World :=
  { w with kv := fun x => if x = k then v else w.kv x }

/-- One step on a bookmark collection, of the kinds that addBookmark and
deleteBookmark perform. -/
inductive Step where
  | add (bmark : Bookmark)
  | delete (bmarkID : String)
  | updateTimes (w : World) (bmarkID : String)
  | updateLabels (bmark : Bookmark)

/-- The collection after one step; `none` is the nil-pointer panic of
updateTimes or updateLabels on an absent key. -/
def Step.apply (b : Bookmarks) : Step → Option Bookmarks
  | .add bmark => some (b.add bmark)
  | .delete bmarkID => some (b.delete bmarkID)
  | .updateTimes w bmarkID => (b.updateTimes w bmarkID).map fun r => r.1
  | .updateLabels bmark => b.updateLabels bmark

/-- The collection after a sequence of steps, first step first. -/
def runSteps : List Step → Bookmarks → Option Bookmarks
  | [], b => some b
  | s :: rest, b =>
    match s.apply b with
    | none => none
    | some b1 => runSteps rest b1

/-- Every map key is the PostID of the bookmark stored under it. -/
def Bookmarks.keysArePostIDs (b : Bookmarks) : Prop :=
  ∀ e ∈ b.ByID.entries, e.2.PostID = e.1

/-! ## Concrete inputs -/

/-- A world with an empty KV store, no failures and a clock stuck at zero. -/
def emptyWorld : World := {}

/-- A first save of post `A`. -/
def bookmarkA1 : Bookmark := { PostID := "A", Title := "first", LabelIDs := some ["L1"] }

/-- A second save of post `A`, with another title and no labels. -/
def bookmarkA2 : Bookmark := { PostID := "A", Title := "second", LabelIDs := none }

/-- A save of post `A` that arrives with two different time stamps. -/
def bookmarkStamped : Bookmark := { PostID := "A", CreateAt := 1, ModifiedAt := 2 }

/-- A bookmark of post `B`. -/
def bookmarkB : Bookmark := { PostID := "B", Title := "other", CreateAt := 7, ModifiedAt := 9 }

/-- The collection holding only `bookmarkA1`, whose `CreateAt` is zero. -/
def onlyA : Bookmarks := ⟨AList.singleton "A" bookmarkA1⟩

/-- The collection holding only `bookmarkB`, whose `CreateAt` is not zero. -/
def onlyB : Bookmarks := ⟨AList.singleton "B" bookmarkB⟩

/-- User `u` has stored `onlyA`; the clock reads 5, 6, 7, ... and has not been read. -/
def worldWithA : World :=
  { kv := fun k => if k = "bookmarks_u" then some (Blob.bookmarks onlyA) else none
    clock := fun n => 5 + n }

/-- User `u` has stored `onlyB`; the clock reads 9, 10, 11, ... and its first
reading, the stored `ModifiedAt` of `bookmarkB`, has been taken. -/
def worldWithB : World :=
  { kv := fun k => if k = "bookmarks_u" then some (Blob.bookmarks onlyB) else none
    clock := fun n => 9 + n
    reads := 1 }

/-- The label collection of user `u` holding the single label `work`. -/
def labelsWork : Labels :=
  { ByID := AList.singleton "id1" { Name := "work", ID := "id1" }
    userID := "u" }

/-- A version-4 UUID, as sixteen bytes. -/
def sampleUUID : List Nat :=
  [0xf8, 0x1d, 0x4f, 0xae, 0x7d, 0xec, 0x41, 0xd0, 0xa7, 0x65, 0x00, 0xa0, 0xc9, 0x1e, 0x6b, 0xf6]

/-- A world with an empty KV store whose entropy source yields `sampleUUID`. -/
def worldWithUUID : World := { uuid := fun _ => sampleUUID }

/-- Post `A` labelled `L1`. -/
def labelledA : Bookmark := { PostID := "A", LabelIDs := some ["L1"] }

/-- Post `B` with an empty label list. -/
def labelledB : Bookmark := { PostID := "B", LabelIDs := some [] }

/-- Post `C` labelled `L1` and `L2`. -/
def labelledC : Bookmark := { PostID := "C", LabelIDs := some ["L1", "L2"] }

/-- The collection `{A: [L1], B: [], C: [L1, L2]}`. -/
def threeBookmarks : Bookmarks :=
  ⟨(((∅ : GoMap Bookmark).insert "A" labelledA).insert "B" labelledB).insert "C" labelledC⟩

/-- The labels `L1` named `work` and `L2` named `home`. -/
def twoLabels : GoMap Label :=
  ((∅ : GoMap Label).insert "L1" { Name := "work", ID := "L1" }).insert "L2"
    { Name := "home", ID := "L2" }

/-- User `u` has stored `threeBookmarks` and `twoLabels`; the posts `A`, `B`, `C`
were created at 300, 100 and 200. -/
def worldThree : World :=
  { kv := fun k =>
      if k = "bookmarks_u" then some (Blob.bookmarks threeBookmarks)
      else if k = "labels_u" then some (Blob.labels twoLabels) else none
    posts := fun p =>
      if p = "A" then .ok 300 else if p = "B" then .ok 100 else if p = "C" then .ok 200
      else .error "post not found" }

/-- The collection `{A, B}`. -/
def twoBookmarks : Bookmarks :=
  ⟨((∅ : GoMap Bookmark).insert "A" labelledA).insert "B" labelledB⟩

/-- Every post was created at time 100. -/
def worldTies : World := { posts := fun _ => .ok 100 }

/-- User `u` has stored `onlyB` and every `KVSet` fails. -/
def worldSetFails : World :=
  { kv := fun k => if k = "bookmarks_u" then some (Blob.bookmarks onlyB) else none
    setErr := fun _ => some "KVSet failed" }

/-- Post `A` labelled `L1`, stamped with the clock readings 5 and 6. -/
def stampedA : Bookmark :=
  { PostID := "A", CreateAt := 5, ModifiedAt := 6, LabelIDs := some ["L1"] }

/-- Six steps from the empty collection: two saves, a re-save of `A`, a save of
`C` and the deletion of `B`. -/
def sampleSteps : List Step :=
  [Step.add labelledA, Step.add labelledB, Step.updateTimes worldWithA "A",
    Step.updateLabels bookmarkA1, Step.add labelledC, Step.delete "B"]

/-- The collection `{A, C}` that `sampleSteps` leaves. -/
def afterSampleSteps : Bookmarks :=
  ⟨(AList.singleton "A" stampedA).insert "C" labelledC⟩

/-! ## Lemmas on maps -/

theorem dlookup_kreplace_self {V : Type} (a : String) (b : V) :
    ∀ l : List (Sigma fun _ : String => V), a ∈ l.keys →
      List.dlookup a (List.kreplace a b l) = some b
  | [], h => by simp at h
  | ⟨k, v⟩ :: l, h => by
    by_cases hk : a = k
    · subst hk
      simp only [List.kreplace]
      rw [List.lookmap_cons_some (b := ⟨a, b⟩) _ _ (by simp)]
      exact List.dlookup_cons_eq _ _ _
    · have h2 : a ∈ l.keys := by
        simpa [List.keys, hk] using h
      have ih := dlookup_kreplace_self a b l h2
      simp only [List.kreplace] at ih ⊢
      rw [List.lookmap_cons_none _ _ (by simp [hk])]
      rw [List.dlookup_cons_ne _ _ hk]
      exact ih

theorem dlookup_kreplace_ne {V : Type} (a a2 : String) (b : V) (h : a2 ≠ a) :
    ∀ l : List (Sigma fun _ : String => V),
      List.dlookup a2 (List.kreplace a b l) = List.dlookup a2 l
  | [] => rfl
  | ⟨k, v⟩ :: l => by
    by_cases hk : a = k
    · subst hk
      simp only [List.kreplace]
      rw [List.lookmap_cons_some (b := ⟨a, b⟩) _ _ (by simp)]
      rw [List.dlookup_cons_ne _ _ h, List.dlookup_cons_ne _ _ h]
    · have ih := dlookup_kreplace_ne a a2 b h l
      simp only [List.kreplace] at ih ⊢
      rw [List.lookmap_cons_none _ _ (by simp [hk])]
      by_cases h2 : a2 = k
      · subst h2; simp
      · rw [List.dlookup_cons_ne _ _ h2, List.dlookup_cons_ne _ _ h2]
        exact ih

theorem lookup_replace_self {V : Type} (a : String) (b : V) (s : GoMap V) (h : a ∈ s) :
    (s.replace a b).lookup a = some b :=
  dlookup_kreplace_self a b s.entries (AList.mem_keys.1 h)

theorem lookup_replace_ne {V : Type} (a a2 : String) (b : V) (s : GoMap V) (h : a2 ≠ a) :
    (s.replace a b).lookup a2 = s.lookup a2 :=
  dlookup_kreplace_ne a a2 b h s.entries

theorem mem_of_lookup {V : Type} {a : String} {v : V} {s : GoMap V}
    (h : s.lookup a = some v) : a ∈ s := by
  rw [← AList.lookup_isSome, h]; rfl

theorem entries_ne_nil_of_lookup {V : Type} {a : String} {v : V} {s : GoMap V}
    (h : s.lookup a = some v) : s.entries.length ≠ 0 := by
  intro h0
  have : s.entries = [] := List.length_eq_zero.1 h0
  simp [AList.lookup, this] at h

/-! ## Lemmas on the bookmark store -/

theorem getBookmarks_present (w : World) (userID : String) (C : Bookmarks)
    (hget : w.getErr (getBookmarksKey userID) = none)
    (hkv : w.kv (getBookmarksKey userID) = some (Blob.bookmarks C)) :
    getBookmarks w userID = (some C, none) := by
  simp [getBookmarks, World.KVGet, hget, hkv, unmarshalBookmarks]

theorem getBookmarks_missing (w : World) (userID : String)
    (hget : w.getErr (getBookmarksKey userID) = none)
    (hkv : w.kv (getBookmarksKey userID) = none) :
    getBookmarks w userID = (none, none) := by
  simp [getBookmarks, World.KVGet, hget, hkv]

theorem storeBookmarks_ok (w : World) (userID : String) (bmarks : Bookmarks)
    (hset : w.setErr (getBookmarksKey userID) = none) :
    storeBookmarks w userID bmarks
      = (none, w.written (getBookmarksKey userID) (Blob.bookmarks bmarks)) := by
  simp [storeBookmarks, World.KVSet, hset, World.written]

theorem addBookmark_new (w : World) (userID : String) (bmark : Bookmark)
    (stored : Option Bookmarks)
    (hget : w.getErr (getBookmarksKey userID) = none)
    (hset : w.setErr (getBookmarksKey userID) = none)
    (hkv : w.kv (getBookmarksKey userID) = stored.map Blob.bookmarks)
    (hnew : (stored.getD NewBookmarks).ByID.lookup bmark.PostID = none) :
    addBookmark w userID bmark
      = (Ret.ret (some ((stored.getD NewBookmarks).add bmark)) none,
         w.written (getBookmarksKey userID)
           (Blob.bookmarks ((stored.getD NewBookmarks).add bmark))) := by
  cases stored with
  | none =>
    simp only [Option.map] at hkv
    simp [addBookmark, getBookmarks_missing w userID hget hkv, NewBookmarks,
      storeBookmarks_ok _ _ _ hset]
  | some C =>
    simp only [Option.map] at hkv
    simp only [Option.getD] at hnew ⊢
    simp only [addBookmark, getBookmarks_present w userID C hget hkv,
      storeBookmarks_ok _ _ _ hset, Bookmarks.exists, hnew]
    split <;> rfl
theorem addBookmark_existing (w : World) (userID : String) (bmark : Bookmark)
    (C : Bookmarks) (e : Bookmark)
    (hget : w.getErr (getBookmarksKey userID) = none)
    (hset : w.setErr (getBookmarksKey userID) = none)
    (hkv : w.kv (getBookmarksKey userID) = some (Blob.bookmarks C))
    (hex : C.ByID.lookup bmark.PostID = some e) :
    ∃ C2 : Bookmarks, ∃ w2 : World,
      addBookmark w userID bmark = (Ret.ret (some C2) none, w2) ∧
      w2.kv (getBookmarksKey userID) = some (Blob.bookmarks C2) ∧
      w2.getErr = w.getErr ∧ w2.setErr = w.setErr ∧ w2.clock = w.clock ∧
      w2.reads = w.reads + (if e.CreateAt = 0 then 2 else 1) ∧
      (∀ k, k ≠ getBookmarksKey userID → w2.kv k = w.kv k) ∧
      C2.ByID.keys = C.ByID.keys ∧
      C2.ByID.lookup bmark.PostID = some (restamp w e bmark.LabelIDs) ∧
      (∀ k, k ≠ bmark.PostID → C2.ByID.lookup k = C.ByID.lookup k) := by
  have hmem : bmark.PostID ∈ C.ByID := mem_of_lookup hex
  have hlen := entries_ne_nil_of_lookup hex
  have hfin : ∀ e1 e2 : Bookmark,
      ((C.ByID.replace bmark.PostID e1).replace bmark.PostID e2).keys = C.ByID.keys ∧
      ((C.ByID.replace bmark.PostID e1).replace bmark.PostID e2).lookup bmark.PostID = some e2 ∧
      (∀ k, k ≠ bmark.PostID →
        ((C.ByID.replace bmark.PostID e1).replace bmark.PostID e2).lookup k
          = C.ByID.lookup k) := by
    intro e1 e2
    refine ⟨by simp, ?_, ?_⟩
    · exact lookup_replace_self _ _ _ (AList.mem_replace.2 hmem)
    · intro k hk
      rw [lookup_replace_ne _ _ _ _ hk, lookup_replace_ne _ _ _ _ hk]
  by_cases hc : e.CreateAt = 0
  · simp only [addBookmark, getBookmarks_present w userID C hget hkv, hlen, Bookmarks.exists, hex,
      Bookmarks.updateTimes, Bookmarks.get, Bookmarks.updateLabels, World.GetMillis, hc,
      lookup_replace_self _ _ _ hmem, storeBookmarks, World.KVSet, hset, restamp, if_true,
      if_false]
    refine ⟨_, _, rfl, by simp, rfl, rfl, rfl, by simp [hc], ?_, ?_⟩
    · intro k hk; simp [hk]
    · exact hfin _ _
  · simp only [addBookmark, getBookmarks_present w userID C hget hkv, hlen, Bookmarks.exists, hex,
      Bookmarks.updateTimes, Bookmarks.get, Bookmarks.updateLabels, World.GetMillis, hc,
      lookup_replace_self _ _ _ hmem, storeBookmarks, World.KVSet, hset, restamp, if_true,
      if_false]
    refine ⟨_, _, rfl, by simp, rfl, rfl, rfl, by simp [hc], ?_, ?_⟩
    · intro k hk; simp [hk]
    · exact hfin _ _

theorem getBookmarks_read (w : World) (userID : String) (stored : Option Bookmarks)
    (hread : getBookmarks w userID = (stored, none)) :
    w.getErr (getBookmarksKey userID) = none ∧
      w.kv (getBookmarksKey userID) = stored.map Blob.bookmarks := by
  unfold getBookmarks World.KVGet at hread
  cases hg : w.getErr (getBookmarksKey userID) with
  | some e => simp [hg] at hread
  | none =>
    refine ⟨rfl, ?_⟩
    cases hk : w.kv (getBookmarksKey userID) with
    | none =>
      simp [hg, hk] at hread
      simp [← hread]
    | some bb =>
      cases bb with
      | bookmarks b =>
        simp [hg, hk, unmarshalBookmarks] at hread
        simp [← hread]
      | labels l => simp [hg, hk, unmarshalBookmarks] at hread
      | raw r => simp [hg, hk, unmarshalBookmarks] at hread

theorem getBookmarks_of_kv (w : World) (userID : String) (stored : Option Bookmarks)
    (hget : w.getErr (getBookmarksKey userID) = none)
    (hkv : w.kv (getBookmarksKey userID) = stored.map Blob.bookmarks) :
    getBookmarks w userID = (stored, none) := by
  cases stored with
  | none => exact getBookmarks_missing w userID hget hkv
  | some C => exact getBookmarks_present w userID C hget hkv

/-- What a successful addBookmark does, on either path: the collection it
returns is the one it persists, the failure flags and the clock are untouched,
and the entry under the key carries the incoming labels and the title that was
stored before (the incoming title when the key is new). -/
theorem addBookmark_ok (w : World) (userID : String) (bmark : Bookmark)
    (stored : Option Bookmarks)
    (hread : getBookmarks w userID = (stored, none))
    (hset : w.setErr (getBookmarksKey userID) = none) :
    ∃ C2 : Bookmarks, ∃ w2 : World, ∃ e2 : Bookmark,
      addBookmark w userID bmark = (Ret.ret (some C2) none, w2) ∧
      getBookmarks w2 userID = (some C2, none) ∧
      w2.setErr = w.setErr ∧ w2.clock = w.clock ∧ w.reads ≤ w2.reads ∧
      C2.ByID.lookup bmark.PostID = some e2 ∧
      e2.LabelIDs = bmark.LabelIDs ∧
      e2.Title = (match (stored.getD NewBookmarks).ByID.lookup bmark.PostID with
        | some e => e.Title
        | none => bmark.Title) := by
  obtain ⟨hget, hkv⟩ := getBookmarks_read w userID stored hread
  cases hl : (stored.getD NewBookmarks).ByID.lookup bmark.PostID with
  | none =>
    refine ⟨_, _, bmark, addBookmark_new w userID bmark stored hget hset hkv hl, ?_,
      rfl, rfl, Nat.le_refl _, ?_, rfl, rfl⟩
    · apply getBookmarks_present
      · exact hget
      · simp [World.written]
    · simp [Bookmarks.add]
  | some e =>
    cases stored with
    | none => simp [NewBookmarks] at hl
    | some C =>
      simp only [Option.getD] at hl
      simp only [Option.map] at hkv
      obtain ⟨C2, w2, h1, h2, h3, h4, h5, h6, _, _, h9, _⟩ :=
        addBookmark_existing w userID bmark C e hget hset hkv hl
      refine ⟨C2, w2, _, h1, ?_, h4, h5, by rw [h6]; exact Nat.le_add_right _ _, h9, rfl, rfl⟩
      exact getBookmarks_present w2 userID C2 (by rw [h3]; exact hget) h2

/-! ## Claims on the bookmark store -/

/-- C1: saving the same postID twice leaves exactly one entry under that key in the
persisted collection, and its labelIDs are those of the second save (also when
they are nil). -/
theorem addBookmark_twice_key_stable (w : World) (userID : String) (b1 b2 : Bookmark)
    (stored : Option Bookmarks)
    (hpost : b1.PostID = b2.PostID)
    (hread : getBookmarks w userID = (stored, none))
    (hset : w.setErr (getBookmarksKey userID) = none) :
    ∃ C2 : Bookmarks, ∃ e : Bookmark,
      (addBookmark (addBookmark w userID b1).2 userID b2).1 = Ret.ret (some C2) none ∧
      getBookmarks (addBookmark (addBookmark w userID b1).2 userID b2).2 userID
        = (some C2, none) ∧
      C2.ByID.keys.count b1.PostID = 1 ∧
      C2.ByID.lookup b1.PostID = some e ∧
      e.LabelIDs = b2.LabelIDs := by
  obtain ⟨C1, w1, e1, h1, hr1, hs1, _, _, _, _, _⟩ :=
    addBookmark_ok w userID b1 stored hread hset
  obtain ⟨C2, w2, e2, h2, hr2, _, _, _, hl2, hlab, _⟩ :=
    addBookmark_ok w1 userID b2 (some C1) hr1 (by rw [hs1]; exact hset)
  rw [← hpost] at hl2
  refine ⟨C2, e2, ?_, ?_, ?_, hl2, hlab⟩
  · rw [h1]; simp only []; rw [h2]
  · rw [h1]; simp only []; rw [h2]; exact hr2
  · exact List.count_eq_one_of_mem C2.ByID.keys_nodup (AList.mem_keys.1 (mem_of_lookup hl2))

theorem addBookmark_twice_key_stable_witness :
    bookmarkA1.PostID = bookmarkA2.PostID ∧
    getBookmarks emptyWorld "u" = (none, none) ∧
    ∃ C2 : Bookmarks, ∃ e : Bookmark,
      (addBookmark (addBookmark emptyWorld "u" bookmarkA1).2 "u" bookmarkA2).1
        = Ret.ret (some C2) none ∧
      getBookmarks (addBookmark (addBookmark emptyWorld "u" bookmarkA1).2 "u" bookmarkA2).2 "u"
        = (some C2, none) ∧
      C2.ByID.keys.count bookmarkA1.PostID = 1 ∧
      C2.ByID.lookup bookmarkA1.PostID = some e ∧
      e.LabelIDs = bookmarkA2.LabelIDs :=
  ⟨rfl, rfl, addBookmark_twice_key_stable emptyWorld "u" bookmarkA1 bookmarkA2 none rfl rfl rfl⟩

/-- C2 (as stated, refuted): after saving `bookmarkA1` and then `bookmarkA2`, which has
the same postID and another, non-empty title, the stored title is still the
first one. -/
theorem addBookmark_title_counterexample :
    bookmarkA1.PostID = bookmarkA2.PostID ∧
    bookmarkA1.Title ≠ bookmarkA2.Title ∧
    bookmarkA2.Title ≠ "" ∧
    Option.map Bookmark.Title
      (storedBookmark (addBookmark (addBookmark emptyWorld "u" bookmarkA1).2 "u" bookmarkA2).2
        "u" "A") = some "first" ∧
    Option.map Bookmark.Title
      (storedBookmark (addBookmark (addBookmark emptyWorld "u" bookmarkA1).2 "u" bookmarkA2).2
        "u" "A") ≠ some bookmarkA2.Title := by
  refine ⟨rfl, by decide, by decide, by decide, by decide⟩

/-- C2 (amended): after two saves of the same postID the stored title is the one
that the first save left (the title stored before it, or `b1.Title` when the
postID was new); the second save does not write `b2.Title`. -/
theorem addBookmark_twice_keeps_title (w : World) (userID : String) (b1 b2 : Bookmark)
    (stored : Option Bookmarks)
    (hpost : b1.PostID = b2.PostID)
    (hread : getBookmarks w userID = (stored, none))
    (hset : w.setErr (getBookmarksKey userID) = none) :
    ∃ e1 e2 : Bookmark,
      storedBookmark (addBookmark w userID b1).2 userID b1.PostID = some e1 ∧
      storedBookmark (addBookmark (addBookmark w userID b1).2 userID b2).2 userID b2.PostID
        = some e2 ∧
      e2.Title = e1.Title ∧
      e1.Title = (match (stored.getD NewBookmarks).ByID.lookup b1.PostID with
        | some e => e.Title
        | none => b1.Title) := by
  obtain ⟨C1, w1, e1, h1, hr1, hs1, _, _, hl1, _, ht1⟩ :=
    addBookmark_ok w userID b1 stored hread hset
  obtain ⟨C2, w2, e2, h2, hr2, _, _, _, hl2, _, ht2⟩ :=
    addBookmark_ok w1 userID b2 (some C1) hr1 (by rw [hs1]; exact hset)
  refine ⟨e1, e2, ?_, ?_, ?_, ht1⟩
  · rw [h1]; simp only [storedBookmark, hr1, Bookmarks.get]; exact hl1
  · rw [h1]; simp only []; rw [h2]; simp only [storedBookmark, hr2, Bookmarks.get]; exact hl2
  · rw [ht2]; simp only [Option.getD]; rw [← hpost, hl1]

theorem addBookmark_twice_keeps_title_witness :
    bookmarkA1.PostID = bookmarkA2.PostID ∧
    ∃ e1 e2 : Bookmark,
      storedBookmark (addBookmark emptyWorld "u" bookmarkA1).2 "u" bookmarkA1.PostID = some e1 ∧
      storedBookmark (addBookmark (addBookmark emptyWorld "u" bookmarkA1).2 "u" bookmarkA2).2
        "u" bookmarkA2.PostID = some e2 ∧
      e2.Title = e1.Title ∧
      e1.Title = (match ((none : Option Bookmarks).getD NewBookmarks).ByID.lookup
          bookmarkA1.PostID with
        | some e => e.Title
        | none => bookmarkA1.Title) :=
  ⟨rfl, addBookmark_twice_keeps_title emptyWorld "u" bookmarkA1 bookmarkA2 none rfl rfl rfl⟩

/-- C3 (as stated, refuted): re-saving post `A`, stored with `CreateAt = 0`, changes
the stored createdAt from 0 to the clock reading 5. -/
theorem addBookmark_createAt_counterexample :
    bookmarkA2.PostID = "A" ∧
    Option.map Bookmark.CreateAt (storedBookmark worldWithA "u" "A") = some 0 ∧
    Option.map Bookmark.CreateAt
      (storedBookmark (addBookmark worldWithA "u" bookmarkA2).2 "u" "A") = some 5 := by
  refine ⟨rfl, by decide, by decide⟩

/-- C3 (amended): re-saving an existing postID leaves a non-zero createdAt unchanged
and sets modifiedAt to a clock reading taken during the call, which is at least
the previous modifiedAt when the clock is non-decreasing and the previous
modifiedAt was an earlier reading. -/
theorem addBookmark_resave_times (w : World) (userID : String) (bmark : Bookmark)
    (C : Bookmarks) (e : Bookmark)
    (hread : getBookmarks w userID = (some C, none))
    (hset : w.setErr (getBookmarksKey userID) = none)
    (hex : C.ByID.lookup bmark.PostID = some e) :
    ∃ e2 : Bookmark,
      storedBookmark (addBookmark w userID bmark).2 userID bmark.PostID = some e2 ∧
      (e.CreateAt ≠ 0 → e2.CreateAt = e.CreateAt) ∧
      (∃ i, w.reads ≤ i ∧ i < (addBookmark w userID bmark).2.reads ∧
        e2.ModifiedAt = w.clock i) ∧
      (e.CreateAt ≠ 0 → e2.ModifiedAt = w.clock w.reads) ∧
      ((∀ i j, i ≤ j → w.clock i ≤ w.clock j) →
        (∃ i, i < w.reads ∧ e.ModifiedAt = w.clock i) → e.ModifiedAt ≤ e2.ModifiedAt) := by
  obtain ⟨hget, hkv⟩ := getBookmarks_read w userID (some C) hread
  simp only [Option.map] at hkv
  obtain ⟨C2, w2, h1, h2, h3, _, _, hreads, _, _, hl, _⟩ :=
    addBookmark_existing w userID bmark C e hget hset hkv hex
  have hr2 : getBookmarks w2 userID = (some C2, none) :=
    getBookmarks_present w2 userID C2 (by rw [h3]; exact hget) h2
  rw [h1]
  refine ⟨restamp w e bmark.LabelIDs, ?_, ?_, ?_, ?_, ?_⟩
  · simp only [storedBookmark, hr2, Bookmarks.get]; exact hl
  · intro hne; simp [restamp, hne]
  · by_cases hc : e.CreateAt = 0
    · exact ⟨w.reads + 1, by omega, by simp only [hreads, hc, if_true]; omega,
        by simp [restamp, hc]⟩
    · exact ⟨w.reads, le_refl _, by simp only [hreads, hc, if_false]; omega,
        by simp [restamp, hc]⟩
  · intro hne; simp [restamp, hne]
  · rintro hmono ⟨i, hi, hm⟩
    rw [hm]
    by_cases hc : e.CreateAt = 0
    · simp only [restamp, hc, if_true]; exact hmono _ _ (by omega)
    · simp only [restamp, hc, if_false]; exact hmono _ _ (by omega)

theorem addBookmark_resave_times_witness :
    getBookmarks worldWithB "u" = (some onlyB, none) ∧
    onlyB.ByID.lookup bookmarkB.PostID = some bookmarkB ∧
    bookmarkB.CreateAt ≠ 0 ∧
    (∀ i j, i ≤ j → worldWithB.clock i ≤ worldWithB.clock j) ∧
    (∃ i, i < worldWithB.reads ∧ bookmarkB.ModifiedAt = worldWithB.clock i) ∧
    ∃ e2 : Bookmark,
      storedBookmark (addBookmark worldWithB "u" bookmarkB).2 "u" "B" = some e2 ∧
      e2.CreateAt = 7 ∧ e2.ModifiedAt = 10 ∧ bookmarkB.ModifiedAt ≤ e2.ModifiedAt := by
  have hmono : ∀ i j, i ≤ j → worldWithB.clock i ≤ worldWithB.clock j := by
    intro i j hij
    simp only [worldWithB]
    omega
  have hprev : ∃ i, i < worldWithB.reads ∧ bookmarkB.ModifiedAt = worldWithB.clock i :=
    ⟨0, by decide, rfl⟩
  obtain ⟨e2, h1, h2, _, h4, h5⟩ :=
    addBookmark_resave_times worldWithB "u" bookmarkB onlyB bookmarkB rfl rfl rfl
  exact ⟨rfl, rfl, by decide, hmono, hprev, e2, h1, h2 (by decide), h4 (by decide),
    h5 hmono hprev⟩

/-- C4 (as stated, refuted): a bookmark for a new postID that arrives with
`CreateAt = 1` and `ModifiedAt = 2` is stored with these two different stamps. -/
theorem addBookmark_new_stamps_counterexample :
    bookmarkStamped.PostID = "A" ∧
    getBookmarks emptyWorld "u" = (none, none) ∧
    Option.map Bookmark.CreateAt
      (storedBookmark (addBookmark emptyWorld "u" bookmarkStamped).2 "u" "A") = some 1 ∧
    Option.map Bookmark.ModifiedAt
      (storedBookmark (addBookmark emptyWorld "u" bookmarkStamped).2 "u" "A") = some 2 := by
  refine ⟨rfl, rfl, by decide, by decide⟩

/-- C4 (amended): saving a new postID stores the time stamps of the incoming bookmark
as supplied, so the stored createdAt and modifiedAt are equal exactly when the
incoming ones are (in particular when both are unset, zero). -/
theorem addBookmark_new_stamps (w : World) (userID : String) (bmark : Bookmark)
    (stored : Option Bookmarks)
    (hread : getBookmarks w userID = (stored, none))
    (hset : w.setErr (getBookmarksKey userID) = none)
    (hnew : (stored.getD NewBookmarks).ByID.lookup bmark.PostID = none) :
    ∃ e : Bookmark,
      storedBookmark (addBookmark w userID bmark).2 userID bmark.PostID = some e ∧
      e.CreateAt = bmark.CreateAt ∧ e.ModifiedAt = bmark.ModifiedAt ∧
      (e.CreateAt = e.ModifiedAt ↔ bmark.CreateAt = bmark.ModifiedAt) ∧
      (bmark.CreateAt = 0 → bmark.ModifiedAt = 0 → e.CreateAt = e.ModifiedAt) := by
  obtain ⟨hget, hkv⟩ := getBookmarks_read w userID stored hread
  rw [addBookmark_new w userID bmark stored hget hset hkv hnew]
  have hr : getBookmarks
      (w.written (getBookmarksKey userID)
        (Blob.bookmarks ((stored.getD NewBookmarks).add bmark))) userID
      = (some ((stored.getD NewBookmarks).add bmark), none) :=
    getBookmarks_present _ _ _ hget (by simp [World.written])
  refine ⟨bmark, ?_, rfl, rfl, Iff.rfl, fun h1 h2 => by rw [h1, h2]⟩
  simp only [storedBookmark, hr]
  simp only [Bookmarks.get, Bookmarks.add]
  exact AList.lookup_insert (stored.getD NewBookmarks).ByID

theorem addBookmark_new_stamps_witness :
    getBookmarks worldWithB "u" = (some onlyB, none) ∧
    ((some onlyB).getD NewBookmarks).ByID.lookup bookmarkA1.PostID = none ∧
    bookmarkA1.CreateAt = 0 ∧ bookmarkA1.ModifiedAt = 0 ∧
    ∃ e : Bookmark,
      storedBookmark (addBookmark worldWithB "u" bookmarkA1).2 "u" bookmarkA1.PostID = some e ∧
      e.CreateAt = e.ModifiedAt := by
  obtain ⟨e, h1, _, _, _, h5⟩ :=
    addBookmark_new_stamps worldWithB "u" bookmarkA1 (some onlyB) rfl rfl (by decide)
  exact ⟨rfl, by decide, rfl, rfl, e, h1, h5 rfl rfl⟩

/-- C5: inserting a new postID returns, without error, the stored collection with the
one extra entry `postID -> bmark` (the bookmark as supplied), every other entry
unchanged, and writes exactly that collection under the user's bookmarks key. -/
theorem addBookmark_insert_framed (w : World) (userID : String) (bmark : Bookmark)
    (stored : Option Bookmarks)
    (hread : getBookmarks w userID = (stored, none))
    (hset : w.setErr (getBookmarksKey userID) = none)
    (hnew : (stored.getD NewBookmarks).ByID.lookup bmark.PostID = none) :
    ∃ C2 : Bookmarks,
      (addBookmark w userID bmark).1 = Ret.ret (some C2) none ∧
      C2.ByID.lookup bmark.PostID = some bmark ∧
      (∀ k, k ≠ bmark.PostID →
        C2.ByID.lookup k = (stored.getD NewBookmarks).ByID.lookup k) ∧
      C2.ByID.keys = bmark.PostID :: (stored.getD NewBookmarks).ByID.keys ∧
      (addBookmark w userID bmark).2.kv (getBookmarksKey userID) = some (Blob.bookmarks C2) ∧
      (addBookmark w userID bmark).2.writes
        = (getBookmarksKey userID, Blob.bookmarks C2) :: w.writes ∧
      getBookmarks (addBookmark w userID bmark).2 userID = (some C2, none) := by
  obtain ⟨hget, hkv⟩ := getBookmarks_read w userID stored hread
  rw [addBookmark_new w userID bmark stored hget hset hkv hnew]
  refine ⟨_, rfl, ?_, ?_, ?_, ?_, rfl, ?_⟩
  · simp [Bookmarks.add]
  · intro k hk
    simp [Bookmarks.add, AList.lookup_insert_ne hk]
  · have hnot : bmark.PostID ∉ (stored.getD NewBookmarks).ByID.keys := by
      rw [← AList.mem_keys, ← AList.lookup_eq_none]; exact hnew
    simp [Bookmarks.add, AList.keys_insert, List.erase_of_not_mem hnot]
  · simp [World.written]
  · exact getBookmarks_present _ _ _ hget (by simp [World.written])

theorem addBookmark_insert_framed_witness :
    getBookmarks worldWithB "u" = (some onlyB, none) ∧
    ((some onlyB).getD NewBookmarks).ByID.lookup bookmarkA1.PostID = none ∧
    ∃ C2 : Bookmarks,
      (addBookmark worldWithB "u" bookmarkA1).1 = Ret.ret (some C2) none ∧
      C2.ByID.lookup bookmarkA1.PostID = some bookmarkA1 ∧
      (∀ k, k ≠ bookmarkA1.PostID →
        C2.ByID.lookup k = ((some onlyB).getD NewBookmarks).ByID.lookup k) ∧
      C2.ByID.keys = bookmarkA1.PostID :: ((some onlyB).getD NewBookmarks).ByID.keys ∧
      (addBookmark worldWithB "u" bookmarkA1).2.kv (getBookmarksKey "u")
        = some (Blob.bookmarks C2) ∧
      (addBookmark worldWithB "u" bookmarkA1).2.writes
        = (getBookmarksKey "u", Blob.bookmarks C2) :: worldWithB.writes ∧
      getBookmarks (addBookmark worldWithB "u" bookmarkA1).2 "u" = (some C2, none) :=
  ⟨rfl, by decide,
    addBookmark_insert_framed worldWithB "u" bookmarkA1 (some onlyB) rfl rfl (by decide)⟩

theorem deleteBookmark_found_eq (w : World) (userID bmarkID : String)
    (C : Bookmarks) (e : Bookmark)
    (hread : getBookmarks w userID = (some C, none))
    (hex : C.ByID.lookup bmarkID = some e) :
    deleteBookmark w userID bmarkID
      = (Ret.ret (some e) none, (storeBookmarks w userID (C.delete bmarkID)).2) := by
  simp [deleteBookmark, hread, Bookmarks.exists, hex, Bookmarks.get]

theorem noBookmarks_ne_doesNotExist (bmarkID : String) :
    "User doesn't have any bookmarks" ≠ "Bookmark `" ++ bmarkID ++ "` does not exist" := by
  intro h
  have h2 := congrArg String.data h
  simp [String.data_append] at h2

/-- C6: deleting a postID that is not stored fails with the "no bookmarks" error when
the collection is missing and with the different "does not exist" error when the
collection lacks the postID; in both cases the world is returned as it was: no
KVSet call is made and the store is unchanged. -/
theorem deleteBookmark_absent (w : World) (userID bmarkID : String) :
    (getBookmarks w userID = (none, none) →
      deleteBookmark w userID bmarkID
        = (Ret.ret none (some "User doesn't have any bookmarks"), w)) ∧
    (∀ C : Bookmarks, getBookmarks w userID = (some C, none) →
      C.ByID.lookup bmarkID = none →
      deleteBookmark w userID bmarkID
        = (Ret.ret none (some ("Bookmark `" ++ bmarkID ++ "` does not exist")), w)) ∧
    "User doesn't have any bookmarks" ≠ "Bookmark `" ++ bmarkID ++ "` does not exist" := by
  refine ⟨?_, ?_, noBookmarks_ne_doesNotExist bmarkID⟩
  · intro h
    simp [deleteBookmark, h]
  · intro C h hl
    simp [deleteBookmark, h, Bookmarks.exists, hl]

theorem deleteBookmark_absent_witness :
    getBookmarks emptyWorld "u" = (none, none) ∧
    deleteBookmark emptyWorld "u" "A"
      = (Ret.ret none (some "User doesn't have any bookmarks"), emptyWorld) ∧
    getBookmarks worldWithB "u" = (some onlyB, none) ∧
    onlyB.ByID.lookup "A" = none ∧
    deleteBookmark worldWithB "u" "A"
      = (Ret.ret none (some ("Bookmark `" ++ "A" ++ "` does not exist")), worldWithB) :=
  ⟨rfl, (deleteBookmark_absent emptyWorld "u" "A").1 rfl, rfl, by decide,
    (deleteBookmark_absent worldWithB "u" "A").2.1 onlyB rfl (by decide)⟩

/-- C7 (as stated, refuted): user `u` has stored bookmark `B` and the KV write fails;
deleteBookmark returns the bookmark without error, and the collection persisted
afterwards still holds `B`. -/
theorem deleteBookmark_persist_counterexample :
    getBookmarks worldSetFails "u" = (some onlyB, none) ∧
    onlyB.ByID.lookup "B" = some bookmarkB ∧
    (deleteBookmark worldSetFails "u" "B").1 = Ret.ret (some bookmarkB) none ∧
    storedBookmark (deleteBookmark worldSetFails "u" "B").2 "u" "B" = some bookmarkB ∧
    storedBookmark (deleteBookmark worldSetFails "u" "B").2 "u" "B" ≠ none := by
  refine ⟨rfl, rfl, rfl, rfl, by decide⟩

/-- C7 (amended): when the KV write succeeds, deleting a stored postID returns, without
error, the bookmark held under it, and the collection persisted afterwards is
the stored one without that key, every other entry unchanged. -/
theorem deleteBookmark_existing (w : World) (userID bmarkID : String)
    (C : Bookmarks) (e : Bookmark)
    (hread : getBookmarks w userID = (some C, none))
    (hset : w.setErr (getBookmarksKey userID) = none)
    (hex : C.ByID.lookup bmarkID = some e) :
    (deleteBookmark w userID bmarkID).1 = Ret.ret (some e) none ∧
    ∃ C2 : Bookmarks,
      getBookmarks (deleteBookmark w userID bmarkID).2 userID = (some C2, none) ∧
      C2.ByID.lookup bmarkID = none ∧
      (∀ k, k ≠ bmarkID → C2.ByID.lookup k = C.ByID.lookup k) ∧
      C2.ByID.keys = C.ByID.keys.erase bmarkID := by
  obtain ⟨hget, _⟩ := getBookmarks_read w userID (some C) hread
  rw [deleteBookmark_found_eq w userID bmarkID C e hread hex, storeBookmarks_ok _ _ _ hset]
  refine ⟨rfl, C.delete bmarkID, ?_, ?_, ?_, ?_⟩
  · exact getBookmarks_present _ _ _ hget (by simp [World.written])
  · exact AList.lookup_erase bmarkID C.ByID
  · intro k hk
    exact AList.lookup_erase_ne hk
  · exact AList.keys_erase bmarkID C.ByID

theorem deleteBookmark_existing_witness :
    getBookmarks worldWithB "u" = (some onlyB, none) ∧
    worldWithB.setErr (getBookmarksKey "u") = none ∧
    onlyB.ByID.lookup "B" = some bookmarkB ∧
    (deleteBookmark worldWithB "u" "B").1 = Ret.ret (some bookmarkB) none ∧
    ∃ C2 : Bookmarks,
      getBookmarks (deleteBookmark worldWithB "u" "B").2 "u" = (some C2, none) ∧
      C2.ByID.lookup "B" = none ∧
      (∀ k, k ≠ "B" → C2.ByID.lookup k = onlyB.ByID.lookup k) ∧
      C2.ByID.keys = onlyB.ByID.keys.erase "B" :=
  ⟨rfl, rfl, rfl, deleteBookmark_existing worldWithB "u" "B" onlyB bookmarkB rfl rfl rfl⟩

/-- C8 (failing input): for a user with nothing stored under the bookmarks key,
getBookmarks returns the nil collection without error and getBookmark then
panics in `bmarks.exists`, instead of returning an error. -/
theorem getBookmark_missing_crashes :
    getBookmarks emptyWorld "u" = (none, none) ∧
    getBookmark emptyWorld "u" "A" = Ret.crash :=
  ⟨rfl, rfl⟩

/-- C9: with nothing stored under the user's bookmarks key getBookmarks returns the nil
collection without error; after one addBookmark and the deleteBookmark of the
same postID, both succeeding, it returns a present collection with no entries. -/
theorem missing_vs_empty (w : World) (userID : String) (bmark : Bookmark)
    (hget : w.getErr (getBookmarksKey userID) = none)
    (hkv : w.kv (getBookmarksKey userID) = none)
    (hset : w.setErr (getBookmarksKey userID) = none) :
    getBookmarks w userID = (none, none) ∧
    (addBookmark w userID bmark).1 = Ret.ret (some (NewBookmarks.add bmark)) none ∧
    (deleteBookmark (addBookmark w userID bmark).2 userID bmark.PostID).1
      = Ret.ret (some bmark) none ∧
    ∃ C : Bookmarks,
      getBookmarks (deleteBookmark (addBookmark w userID bmark).2 userID bmark.PostID).2 userID
        = (some C, none) ∧
      C.ByID.entries = [] ∧
      (some C, (none : Option String)) ≠ (none, none) := by
  have hg := getBookmarks_missing w userID hget hkv
  have hadd := addBookmark_new w userID bmark none hget hset (by simpa using hkv) rfl
  simp only [Option.getD] at hadd
  have hr1 : getBookmarks (w.written (getBookmarksKey userID)
      (Blob.bookmarks (NewBookmarks.add bmark))) userID
      = (some (NewBookmarks.add bmark), none) :=
    getBookmarks_present _ _ _ hget (by simp [World.written])
  have hl : (NewBookmarks.add bmark).ByID.lookup bmark.PostID = some bmark :=
    AList.lookup_insert NewBookmarks.ByID
  refine ⟨hg, by rw [hadd], ?_, ?_⟩
  · rw [hadd]
    rw [deleteBookmark_found_eq _ userID bmark.PostID _ bmark hr1 hl]
  · rw [hadd]
    rw [deleteBookmark_found_eq _ userID bmark.PostID _ bmark hr1 hl,
      storeBookmarks_ok _ _ _ (by exact hset)]
    refine ⟨(NewBookmarks.add bmark).delete bmark.PostID, ?_, ?_, by simp⟩
    · exact getBookmarks_present _ _ _ hget (by simp [World.written])
    · simp [Bookmarks.delete, Bookmarks.add, NewBookmarks, AList.erase, AList.insert,
        List.kinsert_def]

theorem missing_vs_empty_witness :
    emptyWorld.getErr (getBookmarksKey "u") = none ∧
    emptyWorld.kv (getBookmarksKey "u") = none ∧
    emptyWorld.setErr (getBookmarksKey "u") = none ∧
    getBookmarks emptyWorld "u" = (none, none) ∧
    (addBookmark emptyWorld "u" bookmarkA1).1
      = Ret.ret (some (NewBookmarks.add bookmarkA1)) none ∧
    (deleteBookmark (addBookmark emptyWorld "u" bookmarkA1).2 "u" bookmarkA1.PostID).1
      = Ret.ret (some bookmarkA1) none ∧
    ∃ C : Bookmarks,
      getBookmarks
        (deleteBookmark (addBookmark emptyWorld "u" bookmarkA1).2 "u" bookmarkA1.PostID).2 "u"
        = (some C, none) ∧
      C.ByID.entries = [] ∧
      (some C, (none : Option String)) ≠ (none, none) :=
  ⟨rfl, rfl, rfl, missing_vs_empty emptyWorld "u" bookmarkA1 rfl rfl rfl⟩

/-! ## Claims on the label store -/

theorem findLabelByName_of_mem (labelName : String) :
    ∀ entries : List (Sigma fun _ : String => Label),
      (∃ e ∈ entries, e.2.Name = labelName) →
      ∃ label, findLabelByName labelName entries = some label ∧ label.Name = labelName
  | [], h => by simp at h
  | e :: rest, h => by
    by_cases he : e.2.Name = labelName
    · exact ⟨e.2, by simp [findLabelByName, he], he⟩
    · have h2 : ∃ x ∈ rest, x.2.Name = labelName := by
        obtain ⟨x, hx, hn⟩ := h
        rcases List.mem_cons.1 hx with rfl | hx
        · exact absurd hn he
        · exact ⟨x, hx, hn⟩
      obtain ⟨label, h3, h4⟩ := findLabelByName_of_mem labelName rest h2
      exact ⟨label, by simp [findLabelByName, he, h3], h4⟩

theorem findLabelByName_none (labelName : String) :
    ∀ entries : List (Sigma fun _ : String => Label),
      findLabelByName labelName entries = none →
      labelName ∉ entries.map fun e => e.2.Name
  | [], _ => by simp
  | e :: rest, h => by
    by_cases he : e.2.Name = labelName
    · simp [findLabelByName, he] at h
    · simp only [findLabelByName, he, if_false] at h
      have ih := findLabelByName_none labelName rest h
      simp only [List.map_cons, List.mem_cons, not_or]
      exact ⟨fun h2 => he h2.symm, ih⟩

theorem addLabel_receiver (w : World) (l : Labels) (labelName : String) :
    (Labels.addLabel w l labelName).2.1
      = match l.getLabelByName labelName with
        | some _ => l
        | none =>
          match w.NewID.1 with
          | none => l
          | some labelID => l.add labelID { Name := labelName } := by
  unfold Labels.addLabel
  cases l.getLabelByName labelName with
  | some label => rfl
  | none =>
    simp only []
    rcases hN : w.NewID with ⟨_ | labelID, w1⟩
    · rfl
    · simp only []
      split <;> rfl

/-- C10: when the collection already holds a label named `labelName`, addLabel fails
with the "already exists" error, calls no KVSet and leaves the collection as it
was (every id keeps its label); and after any addLabel call a collection with
pairwise distinct names still has pairwise distinct names. -/
theorem addLabel_name_unique (w : World) (l : Labels) (labelName : String) :
    ((∃ id label, l.ByID.lookup id = some label ∧ label.Name = labelName) →
      Labels.addLabel w l labelName
        = (Ret.ret none (some ("Label with name `" ++ labelName ++ "` already exists")), l, w)) ∧
    (l.names.Nodup → (Labels.addLabel w l labelName).2.1.names.Nodup) := by
  constructor
  · rintro ⟨id, label, hl, hn⟩
    have hmem : (⟨id, label⟩ : Sigma fun _ : String => Label) ∈ l.ByID.entries :=
      AList.mem_lookup_iff.1 hl
    obtain ⟨found, hf, hfn⟩ := findLabelByName_of_mem labelName l.ByID.entries ⟨_, hmem, hn⟩
    simp [Labels.addLabel, Labels.getLabelByName, hf, hfn]
  · intro hnd
    rw [addLabel_receiver]
    cases hf : l.getLabelByName labelName with
    | some label => exact hnd
    | none =>
      have hnot := findLabelByName_none labelName l.ByID.entries hf
      cases w.NewID.1 with
      | none => exact hnd
      | some labelID =>
        have hsub : ((List.kerase labelID l.ByID.entries).map fun e => e.2.Name).Sublist
            (l.ByID.entries.map fun e => e.2.Name) :=
          (List.kerase_sublist _ _).map _
        simp only [Labels.names, Labels.add, AList.insert, List.kinsert_def, List.map_cons,
          List.nodup_cons]
        exact ⟨fun h => hnot (hsub.subset h), hnd.sublist hsub⟩

theorem addLabel_name_unique_witness :
    (∃ id label, labelsWork.ByID.lookup id = some label ∧ label.Name = "work") ∧
    Labels.addLabel emptyWorld labelsWork "work"
      = (Ret.ret none (some ("Label with name `" ++ "work" ++ "` already exists")),
          labelsWork, emptyWorld) ∧
    labelsWork.names.Nodup ∧
    (Labels.addLabel worldWithUUID labelsWork "home").2.1.names.Nodup :=
  have hex : ∃ id label, labelsWork.ByID.lookup id = some label ∧ label.Name = "work" :=
    ⟨"id1", _, rfl, rfl⟩
  have hnd : labelsWork.names.Nodup := by decide
  ⟨hex, (addLabel_name_unique emptyWorld labelsWork "work").1 hex, hnd,
    (addLabel_name_unique worldWithUUID labelsWork "home").2 hnd⟩

theorem addLabel_success (w : World) (l l2 : Labels) (labelName : String)
    (hadd : (Labels.addLabel w l labelName).1 = Ret.ret (some l2) none) :
    ∃ id, l2 = l.add id { Name := labelName } := by
  unfold Labels.addLabel at hadd
  cases hg : l.getLabelByName labelName with
  | some label => simp [hg] at hadd
  | none =>
    rcases hN : w.NewID with ⟨_ | labelID, w1⟩
    · simp [hg, hN] at hadd
    · rcases hS : storeLabels w1 (l.add labelID { Name := labelName }) with ⟨_ | err, w2⟩
      · simp [hg, hN, hS] at hadd
        exact ⟨labelID, hadd.symm⟩
      · simp [hg, hN, hS] at hadd

/-- C11: after a successful `addLabel labelName`, getIDFromName on the resulting
collection finds an id for the name, and getNameFromID of that id on the same
collection returns the name. -/
theorem addLabel_roundtrip (w : World) (l l2 : Labels) (labelName : String)
    (hadd : (Labels.addLabel w l labelName).1 = Ret.ret (some l2) none) :
    ∃ id, getIDFromName (some l2) labelName = (id, none) ∧
      l2.getNameFromID id = (labelName, none) := by
  obtain ⟨id, rfl⟩ := addLabel_success w l l2 labelName hadd
  refine ⟨id, ?_, ?_⟩
  · simp [getIDFromName, Labels.add, AList.insert, List.kinsert_def, findIDByName]
  · have hl : (l.add id { Name := labelName }).ByID.lookup id
        = some { Name := labelName, ID := id } := AList.lookup_insert l.ByID
    simp [Labels.getNameFromID, Labels.get, hl]

theorem addLabel_roundtrip_witness :
    ∃ l2 : Labels,
      (Labels.addLabel worldWithUUID labelsWork "home").1 = Ret.ret (some l2) none ∧
      ∃ id, getIDFromName (some l2) "home" = (id, none) ∧
        l2.getNameFromID id = ("home", none) :=
  ⟨_, rfl, addLabel_roundtrip worldWithUUID labelsWork _ "home" rfl⟩

/-! ## Claims on the label filter -/

theorem addIfLabelled_lookup (labelID : String) (bmark : Bookmark) (k : String) :
    ∀ (ids : List String) (acc : Bookmarks),
      (addIfLabelled labelID bmark ids acc).ByID.lookup k
        = if labelID ∈ ids ∧ k = bmark.PostID then some bmark else acc.ByID.lookup k
  | [], acc => by simp [addIfLabelled]
  | id :: rest, acc => by
    rw [addIfLabelled, addIfLabelled_lookup labelID bmark k rest]
    by_cases hk : k = bmark.PostID
    · subst hk
      by_cases hid : labelID = id
      · subst hid
        have : (acc.add bmark).ByID.lookup bmark.PostID = some bmark :=
          AList.lookup_insert acc.ByID
        simp [this]
      · simp [hid]
    · by_cases hid : labelID = id
      · have : (acc.add bmark).ByID.lookup k = acc.ByID.lookup k :=
          AList.lookup_insert_ne hk
        simp [hk, hid, this]
      · simp [hk, hid]

theorem filterByLabel_lookup (labelID : String) (k : String) :
    ∀ (entries : List (Sigma fun _ : String => Bookmark)) (acc : Bookmarks),
      entries.NodupKeys → (∀ e ∈ entries, e.2.PostID = e.1) →
      (filterByLabel labelID entries acc).ByID.lookup k
        = match entries.dlookup k with
          | some b => if labelID ∈ b.LabelIDs.getD [] then some b else acc.ByID.lookup k
          | none => acc.ByID.lookup k
  | [], acc, _, _ => by simp [filterByLabel]
  | e :: rest, acc, hnd, hkey => by
    obtain ⟨hnot, hnd2⟩ := List.nodupKeys_cons.1 hnd
    have hkey2 : ∀ x ∈ rest, x.2.PostID = x.1 := fun x hx => hkey x (List.mem_cons_of_mem _ hx)
    have he : e.2.PostID = e.1 := hkey e (List.mem_cons_self _ _)
    rw [filterByLabel, filterByLabel_lookup labelID k rest _ hnd2 hkey2]
    have hacc : (if e.2.hasLabels then addIfLabelled labelID e.2 (e.2.LabelIDs.getD []) acc
        else acc).ByID.lookup k
        = if labelID ∈ e.2.LabelIDs.getD [] ∧ k = e.1 then some e.2 else acc.ByID.lookup k := by
      by_cases hl : e.2.hasLabels
      · simp only [hl, if_true, addIfLabelled_lookup, he]
      · have hnone : e.2.LabelIDs = none := by
          simpa [Bookmark.hasLabels] using hl
        simp [hl, hnone]
    rw [hacc]
    by_cases hk : k = e.1
    · subst hk
      have hrest : rest.dlookup e.1 = none := List.dlookup_eq_none.2 hnot
      rw [hrest]
      cases e with
      | mk k0 b0 => simp [List.dlookup_cons_eq]
    · rw [List.dlookup_cons_ne _ _ hk]
      simp [hk]

theorem entries_nil_of_lookup_none {V : Type} (s : GoMap V)
    (h : ∀ k, s.lookup k = none) : s.entries = [] := by
  cases hs : s.entries with
  | nil => rfl
  | cons e rest =>
    have h1 := h e.1
    rw [AList.lookup, hs] at h1
    cases e with
    | mk k v => simp [List.dlookup_cons_eq] at h1

/-- C12: when the label name resolves to the id `labelID`, getBookmarksWithLabel returns
without error a collection that holds, under each postID, exactly the stored
bookmark of that postID when its labelIDs contain `labelID` and nothing
otherwise; it is the empty collection when no stored bookmark matches.  The
stored collection keys every bookmark by its PostID. -/
theorem getBookmarksWithLabel_filter (w : World) (userID labelName labelID : String)
    (C : Bookmarks)
    (hread : getBookmarks w userID = (some C, none))
    (hkey : ∀ e ∈ C.ByID.entries, e.2.PostID = e.1)
    (hres : getLabelIDsFromNames w userID [labelName] = (some [labelID], none)) :
    ∃ R : Bookmarks,
      getBookmarksWithLabel w userID labelName = Ret.ret (some R) none ∧
      (∀ k b, R.ByID.lookup k = some b ↔
        (C.ByID.lookup k = some b ∧ labelID ∈ b.LabelIDs.getD [])) ∧
      ((∀ k b, C.ByID.lookup k = some b → labelID ∉ b.LabelIDs.getD []) →
        R.ByID.entries = []) := by
  have hlook : ∀ k, (filterByLabel labelID C.ByID.entries NewBookmarks).ByID.lookup k
      = match C.ByID.lookup k with
        | some b => if labelID ∈ b.LabelIDs.getD [] then some b else none
        | none => none := by
    intro k
    rw [filterByLabel_lookup labelID k C.ByID.entries NewBookmarks C.ByID.nodupKeys hkey]
    rfl
  refine ⟨filterByLabel labelID C.ByID.entries NewBookmarks, ?_, ?_, ?_⟩
  · simp [getBookmarksWithLabel, hread, hres]
  · intro k b
    rw [hlook k]
    cases hc : C.ByID.lookup k with
    | none => simp
    | some b0 =>
      by_cases hm : labelID ∈ b0.LabelIDs.getD []
      · simp only [hm, if_true, Option.some.injEq]
        constructor
        · rintro rfl; exact ⟨rfl, hm⟩
        · rintro ⟨h, _⟩; exact h
      · simp only [hm, if_false, Option.some.injEq]
        constructor
        · intro h; cases h
        · rintro ⟨rfl, h⟩; exact absurd h hm
  · intro hno
    apply entries_nil_of_lookup_none
    intro k
    rw [hlook k]
    cases hc : C.ByID.lookup k with
    | none => rfl
    | some b0 => simp [hno k b0 hc]

theorem getBookmarksWithLabel_filter_witness :
    getBookmarks worldThree "u" = (some threeBookmarks, none) ∧
    (∀ e ∈ threeBookmarks.ByID.entries, e.2.PostID = e.1) ∧
    getLabelIDsFromNames worldThree "u" ["work"] = (some ["L1"], none) ∧
    (∃ R : Bookmarks,
      getBookmarksWithLabel worldThree "u" "work" = Ret.ret (some R) none ∧
      (∀ k b, R.ByID.lookup k = some b ↔
        (threeBookmarks.ByID.lookup k = some b ∧ "L1" ∈ b.LabelIDs.getD [])) ∧
      ((∀ k b, threeBookmarks.ByID.lookup k = some b → "L1" ∉ b.LabelIDs.getD []) →
        R.ByID.entries = [])) ∧
    getBookmarksWithLabel worldThree "u" "work"
      = Ret.ret (some ⟨(AList.singleton "C" labelledC).insert "A" labelledA⟩) none :=
  ⟨rfl, by decide, rfl,
    getBookmarksWithLabel_filter worldThree "u" "work" "L1" threeBookmarks rfl (by decide) rfl,
    rfl⟩


theorem getBookmarksWithLabel_no_error (w : World) (userID labelName : String)
    (C : Bookmarks) (hread : getBookmarks w userID = (some C, none)) :
    getBookmarksWithLabel w userID labelName = Ret.crash ∨
      ∃ R : Bookmarks, getBookmarksWithLabel w userID labelName = Ret.ret (some R) none := by
  unfold getBookmarksWithLabel
  rw [hread]
  simp only []
  cases (getLabelIDsFromNames w userID [labelName]).1.getD [] with
  | nil => exact Or.inl rfl
  | cons labelID rest => exact Or.inr ⟨_, rfl⟩

/-- C13 (failing input): user `u` has stored bookmarks and no label named `nosuch`;
the resolution of the name fails with an error, which getBookmarksWithLabel
does not return: it panics on `labelIDs[0]`. -/
theorem getBookmarksWithLabel_resolution_failure :
    getBookmarks worldThree "u" = (some threeBookmarks, none) ∧
    getLabelIDsFromNames worldThree "u" ["nosuch"]
      = (none, some ("Label: `" ++ "nosuch" ++ "` does not exist")) ∧
    getBookmarksWithLabel worldThree "u" "nosuch" = Ret.crash :=
  ⟨rfl, rfl, rfl⟩

/-! ## Claims on the ordering -/

theorem buildTempMap_ok (w : World) :
    ∀ (entries : List (Sigma fun _ : String => Bookmark)) (acc : AList (fun _ : Int => String)),
      (∀ e ∈ entries, ∃ t, w.GetPost e.2.PostID = .ok t) →
      ∃ tm, buildTempMap w entries acc = .ok tm ∧
        ∀ k p, tm.lookup k = some p →
          (acc.lookup k = some p ∨ ∃ e ∈ entries, e.2.PostID = p ∧ w.GetPost p = .ok k)
  | [], acc, _ => ⟨acc, rfl, fun k p h => Or.inl h⟩
  | e :: rest, acc, hposts => by
    obtain ⟨t, ht⟩ := hposts e (List.mem_cons_self _ _)
    obtain ⟨tm, h1, h2⟩ := buildTempMap_ok w rest (acc.insert t e.2.PostID)
      (fun x hx => hposts x (List.mem_cons_of_mem _ hx))
    refine ⟨tm, by simp [buildTempMap, ht, h1], ?_⟩
    intro k p hk
    rcases h2 k p hk with h | ⟨x, hx, hp, hg⟩
    · by_cases hkt : k = t
      · subst hkt
        rw [AList.lookup_insert] at h
        have hp : e.2.PostID = p := Option.some.inj h
        exact Or.inr ⟨e, List.mem_cons_self _ _, hp, by rw [← hp]; exact ht⟩
      · rw [AList.lookup_insert_ne hkt] at h
        exact Or.inl h
    · exact Or.inr ⟨x, List.mem_cons_of_mem _ hx, hp, hg⟩

theorem map_lookup_some {P : Int → Bookmark → Prop} (f : Int → Option Bookmark) :
    ∀ ks : List Int, (∀ k ∈ ks, ∃ b, f k = some b ∧ P k b) →
      ∃ bs : List Bookmark, ks.map f = bs.map some ∧ List.Forall₂ (fun b k => P k b) bs ks
  | [], _ => ⟨[], rfl, List.Forall₂.nil⟩
  | k :: ks, h => by
    obtain ⟨b, hb, hP⟩ := h k (List.mem_cons_self _ _)
    obtain ⟨bs, h1, h2⟩ := map_lookup_some f ks (fun x hx => h x (List.mem_cons_of_mem _ hx))
    exact ⟨b :: bs, by simp [hb, h1], List.Forall₂.cons hP h2⟩

/-- C14: when every message lookup succeeds (and the collection keys every bookmark by
its PostID), ByPostCreateAt returns without error a sequence of stored bookmarks
whose messages' creation times are in ascending order. -/
theorem ByPostCreateAt_sorted (w : World) (C : Bookmarks)
    (hkey : ∀ e ∈ C.ByID.entries, e.2.PostID = e.1)
    (hposts : ∀ e ∈ C.ByID.entries, ∃ t, w.GetPost e.2.PostID = .ok t) :
    ∃ bs : List Bookmark, ∃ ts : List Int,
      ByPostCreateAt w (some C) = Ret.ret (some (bs.map some)) none ∧
      List.Forall₂ (fun b t => C.ByID.lookup b.PostID = some b ∧ w.GetPost b.PostID = .ok t)
        bs ts ∧
      ts.Sorted (fun a b => a ≤ b) := by
  obtain ⟨tm, htm, hinv⟩ := buildTempMap_ok w C.ByID.entries ∅ hposts
  have hall : ∀ k ∈ tm.keys.insertionSort (fun a b => a ≤ b),
      ∃ b, C.ByID.lookup ((tm.lookup k).getD "") = some b ∧
        (C.ByID.lookup b.PostID = some b ∧ w.GetPost b.PostID = .ok k) := by
    intro k hk
    have hk2 : k ∈ tm.keys := (List.perm_insertionSort _ _).mem_iff.1 hk
    have hk3 : k ∈ tm := AList.mem_keys.2 hk2
    obtain ⟨p, hp⟩ := Option.isSome_iff_exists.1 (AList.lookup_isSome.2 hk3)
    rcases hinv k p hp with h | ⟨e, he, hep, hg⟩
    · simp at h
    · have hmem : (⟨e.1, e.2⟩ : Sigma fun _ : String => Bookmark) ∈ C.ByID.entries := by
        cases e; exact he
      have hl : C.ByID.lookup e.1 = some e.2 := AList.mem_lookup_iff.2 hmem
      have hpe : p = e.1 := by rw [← hep]; exact hkey e he
      refine ⟨e.2, by rw [hp]; simp only [Option.getD]; rw [hpe]; exact hl, ?_, ?_⟩
      · rw [hkey e he]; exact hl
      · rw [hep]; exact hg
  obtain ⟨bs, h1, h2⟩ := map_lookup_some _ _ hall
  refine ⟨bs, tm.keys.insertionSort (fun a b => a ≤ b), ?_, h2, ?_⟩
  · simp only [ByPostCreateAt, htm]
    rw [h1]
  · exact List.sorted_insertionSort _ _

theorem ByPostCreateAt_sorted_witness :
    (∀ e ∈ threeBookmarks.ByID.entries, e.2.PostID = e.1) ∧
    worldThree.GetPost "A" = .ok 300 ∧ worldThree.GetPost "B" = .ok 100 ∧
    worldThree.GetPost "C" = .ok 200 ∧
    (∃ bs : List Bookmark, ∃ ts : List Int,
      ByPostCreateAt worldThree (some threeBookmarks) = Ret.ret (some (bs.map some)) none ∧
      List.Forall₂ (fun b t => threeBookmarks.ByID.lookup b.PostID = some b ∧
        worldThree.GetPost b.PostID = .ok t) bs ts ∧
      ts.Sorted (fun a b => a ≤ b)) ∧
    ByPostCreateAt worldThree (some threeBookmarks)
      = Ret.ret (some [some labelledB, some labelledC, some labelledA]) none := by
  have hposts : ∀ e ∈ threeBookmarks.ByID.entries,
      ∃ t, worldThree.GetPost e.2.PostID = .ok t := by
    intro e he
    simp [threeBookmarks, AList.insert, List.kinsert_def] at he
    rcases he with rfl | rfl | rfl
    · exact ⟨200, rfl⟩
    · exact ⟨100, rfl⟩
    · exact ⟨300, rfl⟩
  exact ⟨by decide, rfl, rfl, rfl,
    ByPostCreateAt_sorted worldThree threeBookmarks (by decide) hposts, rfl⟩


/-- C15 (failing input): the posts of the two bookmarks `A` and `B` were both created
at time 100; every lookup succeeds and ByPostCreateAt returns one bookmark, not
two: the second `tempMap[100] = ...` overwrites the first. -/
theorem ByPostCreateAt_ties_lose_bookmarks :
    twoBookmarks.ByID.entries.length = 2 ∧
    worldTies.GetPost "A" = .ok 100 ∧ worldTies.GetPost "B" = .ok 100 ∧
    ByPostCreateAt worldTies (some twoBookmarks) = Ret.ret (some [some labelledA]) none :=
  ⟨rfl, rfl, rfl, rfl⟩

/-! ## Claims on storage failures -/

theorem storeBookmarks_fails (w : World) (userID : String) (bmarks : Bookmarks) (err : String)
    (hset : w.setErr (getBookmarksKey userID) = some err) :
    (storeBookmarks w userID bmarks).1 = some err := by
  simp [storeBookmarks, World.KVSet, hset]

/-- addBookmark returns the error of a failed KV write, on the insert paths and
on the update path. -/
theorem addBookmark_surfaces_write_error (w : World) (userID : String) (bmark : Bookmark)
    (stored : Option Bookmarks) (err : String)
    (hread : getBookmarks w userID = (stored, none))
    (hset : w.setErr (getBookmarksKey userID) = some err) :
    (addBookmark w userID bmark).1 = Ret.ret none (some err) := by
  have hst : ∀ (w1 : World) (bm : Bookmarks), w1.setErr = w.setErr →
      storeBookmarks w1 userID bm
        = (some err, { w1 with writes := (getBookmarksKey userID, Blob.bookmarks bm) :: w1.writes }) := by
    intro w1 bm h1
    simp [storeBookmarks, World.KVSet, h1, hset]
  unfold addBookmark
  rw [hread]
  simp only []
  split
  · rw [hst]; rfl
  · cases hl : (match stored with | none => NewBookmarks | some b => b).ByID.lookup bmark.PostID with
    | none =>
      simp only [Bookmarks.exists, hl]
      rw [hst]; rfl
    | some e =>
      have hmem := mem_of_lookup hl
      by_cases hc : e.CreateAt = 0
      · simp only [Bookmarks.exists, hl, Bookmarks.updateTimes, Bookmarks.get, World.GetMillis,
          hc, if_true, Bookmarks.updateLabels, lookup_replace_self _ _ _ hmem]
        rw [hst]; rfl
      · simp only [Bookmarks.exists, hl, Bookmarks.updateTimes, Bookmarks.get, World.GetMillis,
          hc, if_false, Bookmarks.updateLabels, lookup_replace_self _ _ _ hmem]
        rw [hst]; rfl

/-- addLabel and deleteByID return the error of a failed KV write. -/
theorem labels_surface_write_error (w : World) (l : Labels) (err : String)
    (hset : w.setErr (getLabelsKey l.userID) = some err) :
    (∀ labelName labelID, l.getLabelByName labelName = none → w.NewID.1 = some labelID →
      (Labels.addLabel w l labelName).1 = Ret.ret none (some err)) ∧
    (∀ labelID, (Labels.deleteByID w l labelID).1 = some err) := by
  constructor
  · intro labelName labelID hnone hid
    unfold Labels.addLabel
    rw [hnone]
    rcases hN : w.NewID with ⟨o, w1⟩
    rw [hN] at hid
    simp only [] at hid
    subst hid
    have hw1 : w1.setErr = w.setErr := by
      simp [World.NewID] at hN
      rw [← hN.2]
    simp [storeLabels, World.KVSet, Labels.add, hw1, hset]
  · intro labelID
    simp [Labels.deleteByID, storeLabels, World.KVSet, Labels.delete, hset]

/-- C16 (failing input): user `u` has stored bookmark `B` and the KV write fails;
deleteBookmark reaches its KVSet call, whose error is dropped: it returns the
bookmark with a nil error while `B` is still stored. -/
theorem deleteBookmark_drops_write_error :
    getBookmarks worldSetFails "u" = (some onlyB, none) ∧
    worldSetFails.setErr (getBookmarksKey "u") = some "KVSet failed" ∧
    (deleteBookmark worldSetFails "u" "B").1 = Ret.ret (some bookmarkB) none ∧
    (deleteBookmark worldSetFails "u" "B").2.writes
      = [(getBookmarksKey "u", Blob.bookmarks (onlyB.delete "B"))] ∧
    getBookmarks (deleteBookmark worldSetFails "u" "B").2 "u" = (some onlyB, none) :=
  ⟨rfl, rfl, rfl, rfl, rfl⟩

/-- C19 (failing input): post `A` is stored with `CreateAt = 0` and the clock reads 5
and then 6; after the re-save the stored createdAt is the first reading and
the stored modifiedAt the second one, so they differ. -/
theorem addBookmark_restamp_two_readings :
    Option.map Bookmark.CreateAt (storedBookmark worldWithA "u" "A") = some 0 ∧
    worldWithA.clock worldWithA.reads = 5 ∧
    worldWithA.clock (worldWithA.reads + 1) = 6 ∧
    Option.map Bookmark.CreateAt
      (storedBookmark (addBookmark worldWithA "u" bookmarkA2).2 "u" "A") = some 5 ∧
    Option.map Bookmark.ModifiedAt
      (storedBookmark (addBookmark worldWithA "u" bookmarkA2).2 "u" "A") = some 6 := by
  refine ⟨by decide, by decide, by decide, by decide, by decide⟩

/-! ## Claims on the identifier generator -/

theorem eq_of_length_sixteen (l : List Nat) (h : l.length = 16) :
    ∃ a0 a1 a2 a3 a4 a5 a6 a7 a8 a9 a10 a11 a12 a13 a14 a15 : Nat, l = [a0, a1, a2, a3, a4, a5, a6, a7, a8, a9, a10, a11, a12, a13, a14, a15] := by
  rcases l with _ | ⟨a0, _ | ⟨a1, _ | ⟨a2, _ | ⟨a3, _ | ⟨a4, _ | ⟨a5, _ | ⟨a6, _ | ⟨a7, _ | ⟨a8, _ | ⟨a9, _ | ⟨a10, _ | ⟨a11, _ | ⟨a12, _ | ⟨a13, _ | ⟨a14, _ | ⟨a15, _ | ⟨a16, l⟩⟩⟩⟩⟩⟩⟩⟩⟩⟩⟩⟩⟩⟩⟩⟩⟩
  all_goals first
    | exact ⟨_, _, _, _, _, _, _, _, _, _, _, _, _, _, _, _, rfl⟩
    | (simp at h)

theorem base32Encode_sixteen (a0 a1 a2 a3 a4 a5 a6 a7 a8 a9 a10 a11 a12 a13 a14 a15 : Nat) :
    base32Encode [a0, a1, a2, a3, a4, a5, a6, a7, a8, a9, a10, a11, a12, a13, a14, a15]
      = [ encodeChar (a0 / 8),
        encodeChar ((a0 * 4) % 32 + (a1 / 64) % 32),
        encodeChar ((a1 / 2) % 32),
        encodeChar ((a1 * 16) % 32 + (a2 / 16) % 32),
        encodeChar ((a2 * 2) % 32 + a3 / 128),
        encodeChar ((a3 / 4) % 32),
        encodeChar ((a3 * 8) % 32 + a4 / 32),
        encodeChar (a4 % 32),
        encodeChar (a5 / 8),
        encodeChar ((a5 * 4) % 32 + (a6 / 64) % 32),
        encodeChar ((a6 / 2) % 32),
        encodeChar ((a6 * 16) % 32 + (a7 / 16) % 32),
        encodeChar ((a7 * 2) % 32 + a8 / 128),
        encodeChar ((a8 / 4) % 32),
        encodeChar ((a8 * 8) % 32 + a9 / 32),
        encodeChar (a9 % 32),
        encodeChar (a10 / 8),
        encodeChar ((a10 * 4) % 32 + (a11 / 64) % 32),
        encodeChar ((a11 / 2) % 32),
        encodeChar ((a11 * 16) % 32 + (a12 / 16) % 32),
        encodeChar ((a12 * 2) % 32 + a13 / 128),
        encodeChar ((a13 / 4) % 32),
        encodeChar ((a13 * 8) % 32 + a14 / 32),
        encodeChar (a14 % 32),
        encodeChar (a15 / 8),
        encodeChar ((a15 * 4) % 32 + (0 / 64) % 32) ] ++ List.replicate 6 '=' :=
  rfl

theorem encodeStd_nodup : encodeStd.Nodup := by decide

theorem encodeChar_mem (i : Nat) : encodeChar i ∈ encodeStd := by
  have h : i % 32 < encodeStd.length := Nat.mod_lt _ (by decide)
  rw [encodeChar, List.getD_eq_getElem _ _ h]
  exact List.getElem_mem _

theorem encodeChar_inj (i j : Nat) (h : encodeChar i = encodeChar j) : i % 32 = j % 32 := by
  have hi : i % 32 < encodeStd.length := Nat.mod_lt _ (by decide)
  have hj : j % 32 < encodeStd.length := Nat.mod_lt _ (by decide)
  rw [encodeChar, encodeChar, List.getD_eq_getElem _ _ hi, List.getD_eq_getElem _ _ hj] at h
  exact (encodeStd_nodup.getElem_inj_iff).1 h

/-- C17: for every sixteen-byte value NewID returns a string of exactly 26 characters,
each of them in the alphabet of the encoding; the padding character does not
occur in it. -/
theorem NewID_format (uuid : List Nat) (hlen : uuid.length = 16) :
    ∃ s : String, NewID uuid = some s ∧ s.length = 26 ∧
      (∀ c ∈ s.data, c ∈ encodeStd) ∧ '=' ∉ s.data := by
  obtain ⟨a0, a1, a2, a3, a4, a5, a6, a7, a8, a9, a10, a11, a12, a13, a14, a15, rfl⟩ :=
    eq_of_length_sixteen uuid hlen
  have hmem : ∀ c ∈ (base32Encode
      [a0, a1, a2, a3, a4, a5, a6, a7, a8, a9, a10, a11, a12, a13, a14, a15]).take 26,
      c ∈ encodeStd := by
    intro c hc
    rw [base32Encode_sixteen] at hc
    simp only [List.take, List.cons_append, List.nil_append, List.mem_cons, List.mem_nil_iff,
      or_false, List.not_mem_nil] at hc
    rcases hc with h | h | h | h | h | h | h | h | h | h | h | h | h | h | h | h | h | h | h | h
      | h | h | h | h | h | h <;> (rw [h]; exact encodeChar_mem _)
  refine ⟨String.mk ((base32Encode
      [a0, a1, a2, a3, a4, a5, a6, a7, a8, a9, a10, a11, a12, a13, a14, a15]).take 26),
    rfl, rfl, hmem, ?_⟩
  intro hpad
  exact absurd (hmem _ hpad) (by decide)

theorem NewID_format_witness :
    sampleUUID.length = 16 ∧
    (∃ s : String, NewID sampleUUID = some s ∧ s.length = 26 ∧
      (∀ c ∈ s.data, c ∈ encodeStd) ∧ '=' ∉ s.data) ∧
    NewID sampleUUID = some "9yqw9mu77ty7bj5fynoc18um6a" :=
  ⟨rfl, NewID_format sampleUUID rfl, rfl⟩


theorem byte0_inj (x0 x1 y0 y1 : Nat) (hx0 : x0 < 256) (hy0 : y0 < 256)
    (hx1 : x1 < 256) (hy1 : y1 < 256)
    (m0 : (x0 / 8) % 32 = (y0 / 8) % 32)
    (m1 : ((x0 * 4) % 32 + (x1 / 64) % 32) % 32 = ((y0 * 4) % 32 + (y1 / 64) % 32) % 32) :
    x0 = y0 := by
  omega

theorem byte1_inj (x0 x1 x2 y0 y1 y2 : Nat) (hx1 : x1 < 256) (hy1 : y1 < 256)
    (hx2 : x2 < 256) (hy2 : y2 < 256) (h0 : x0 = y0)
    (m1 : ((x0 * 4) % 32 + (x1 / 64) % 32) % 32 = ((y0 * 4) % 32 + (y1 / 64) % 32) % 32)
    (m2 : ((x1 / 2) % 32) % 32 = ((y1 / 2) % 32) % 32)
    (m3 : ((x1 * 16) % 32 + (x2 / 16) % 32) % 32 = ((y1 * 16) % 32 + (y2 / 16) % 32) % 32) :
    x1 = y1 := by
  omega

theorem byte2_inj (x1 x2 x3 y1 y2 y3 : Nat) (hx2 : x2 < 256) (hy2 : y2 < 256)
    (hx3 : x3 < 256) (hy3 : y3 < 256) (h1 : x1 = y1)
    (m3 : ((x1 * 16) % 32 + (x2 / 16) % 32) % 32 = ((y1 * 16) % 32 + (y2 / 16) % 32) % 32)
    (m4 : ((x2 * 2) % 32 + x3 / 128) % 32 = ((y2 * 2) % 32 + y3 / 128) % 32) :
    x2 = y2 := by
  omega

theorem byte3_inj (x2 x3 x4 y2 y3 y4 : Nat) (hx3 : x3 < 256) (hy3 : y3 < 256)
    (hx4 : x4 < 256) (hy4 : y4 < 256) (h2 : x2 = y2)
    (m4 : ((x2 * 2) % 32 + x3 / 128) % 32 = ((y2 * 2) % 32 + y3 / 128) % 32)
    (m5 : ((x3 / 4) % 32) % 32 = ((y3 / 4) % 32) % 32)
    (m6 : ((x3 * 8) % 32 + x4 / 32) % 32 = ((y3 * 8) % 32 + y4 / 32) % 32) :
    x3 = y3 := by
  omega

theorem byte4_inj (x3 x4 y3 y4 : Nat) (hx4 : x4 < 256) (hy4 : y4 < 256) (h3 : x3 = y3)
    (m6 : ((x3 * 8) % 32 + x4 / 32) % 32 = ((y3 * 8) % 32 + y4 / 32) % 32)
    (m7 : (x4 % 32) % 32 = (y4 % 32) % 32) :
    x4 = y4 := by
  omega

theorem quantumBlocks_inj (x0 x1 x2 x3 x4 y0 y1 y2 y3 y4 : Nat)
    (hx0 : x0 < 256) (hx1 : x1 < 256) (hx2 : x2 < 256) (hx3 : x3 < 256) (hx4 : x4 < 256)
    (hy0 : y0 < 256) (hy1 : y1 < 256) (hy2 : y2 < 256) (hy3 : y3 < 256) (hy4 : y4 < 256)
    (m0 : (x0 / 8) % 32 = (y0 / 8) % 32)
    (m1 : ((x0 * 4) % 32 + (x1 / 64) % 32) % 32 = ((y0 * 4) % 32 + (y1 / 64) % 32) % 32)
    (m2 : ((x1 / 2) % 32) % 32 = ((y1 / 2) % 32) % 32)
    (m3 : ((x1 * 16) % 32 + (x2 / 16) % 32) % 32 = ((y1 * 16) % 32 + (y2 / 16) % 32) % 32)
    (m4 : ((x2 * 2) % 32 + x3 / 128) % 32 = ((y2 * 2) % 32 + y3 / 128) % 32)
    (m5 : ((x3 / 4) % 32) % 32 = ((y3 / 4) % 32) % 32)
    (m6 : ((x3 * 8) % 32 + x4 / 32) % 32 = ((y3 * 8) % 32 + y4 / 32) % 32)
    (m7 : (x4 % 32) % 32 = (y4 % 32) % 32) :
    x0 = y0 ∧ x1 = y1 ∧ x2 = y2 ∧ x3 = y3 ∧ x4 = y4 := by
  have q0 := byte0_inj x0 x1 y0 y1 hx0 hy0 hx1 hy1 m0 m1
  have q1 := byte1_inj x0 x1 x2 y0 y1 y2 hx1 hy1 hx2 hy2 q0 m1 m2 m3
  have q2 := byte2_inj x1 x2 x3 y1 y2 y3 hx2 hy2 hx3 hy3 q1 m3 m4
  have q3 := byte3_inj x2 x3 x4 y2 y3 y4 hx3 hy3 hx4 hy4 q2 m4 m5 m6
  have q4 := byte4_inj x3 x4 y3 y4 hx4 hy4 q3 m6 m7
  exact ⟨q0, q1, q2, q3, q4⟩

theorem lastQuantum_inj (x y : Nat) (hx : x < 256) (hy : y < 256)
    (m0 : (x / 8) % 32 = (y / 8) % 32)
    (m1 : ((x * 4) % 32 + (0 / 64) % 32) % 32 = ((y * 4) % 32 + (0 / 64) % 32) % 32) :
    x = y := by
  omega

/-- C20: for every sixteen-byte input the full encoding has 32 characters, the last six
of which are the padding character, so the 26 characters kept by NewID are all
the characters that carry data; and two sixteen-byte inputs with the same ID
are equal. -/
theorem NewID_truncation_injective (u v : List Nat)
    (hu : u.length = 16) (hv : v.length = 16)
    (hub : ∀ b ∈ u, b < 256) (hvb : ∀ b ∈ v, b < 256) :
    (base32Encode u).length = 32 ∧
    (base32Encode u).drop 26 = List.replicate 6 '=' ∧
    (NewID u = NewID v → u = v) := by
  obtain ⟨a0, a1, a2, a3, a4, a5, a6, a7, a8, a9, a10, a11, a12, a13, a14, a15, rfl⟩ :=
    eq_of_length_sixteen u hu
  obtain ⟨b0, b1, b2, b3, b4, b5, b6, b7, b8, b9, b10, b11, b12, b13, b14, b15, rfl⟩ :=
    eq_of_length_sixteen v hv
  refine ⟨rfl, rfl, ?_⟩
  intro h
  have h2 : (base32Encode [a0, a1, a2, a3, a4, a5, a6, a7, a8, a9, a10, a11, a12, a13, a14, a15]).take 26
      = (base32Encode [b0, b1, b2, b3, b4, b5, b6, b7, b8, b9, b10, b11, b12, b13, b14, b15]).take 26 :=
    congrArg String.data (Option.some.inj h)
  rw [base32Encode_sixteen, base32Encode_sixteen] at h2
  simp only [List.take, List.cons_append, List.nil_append, List.cons.injEq, and_true] at h2
  obtain ⟨e0, e1, e2, e3, e4, e5, e6, e7, e8, e9, e10, e11, e12, e13, e14, e15, e16, e17, e18, e19, e20, e21, e22, e23, e24, e25⟩ := h2
  simp only [List.mem_cons, List.mem_nil_iff, or_false, forall_eq_or_imp, forall_eq] at hub hvb
  obtain ⟨ua0, ua1, ua2, ua3, ua4, ua5, ua6, ua7, ua8, ua9, ua10, ua11, ua12, ua13, ua14, ua15⟩ := hub
  obtain ⟨vb0, vb1, vb2, vb3, vb4, vb5, vb6, vb7, vb8, vb9, vb10, vb11, vb12, vb13, vb14, vb15⟩ := hvb
  obtain ⟨q0, q1, q2, q3, q4⟩ :=
    quantumBlocks_inj a0 a1 a2 a3 a4 b0 b1 b2 b3 b4 ua0 ua1 ua2 ua3 ua4 vb0 vb1 vb2 vb3 vb4
      (encodeChar_inj _ _ e0) (encodeChar_inj _ _ e1) (encodeChar_inj _ _ e2) (encodeChar_inj _ _ e3) (encodeChar_inj _ _ e4) (encodeChar_inj _ _ e5) (encodeChar_inj _ _ e6) (encodeChar_inj _ _ e7)
  obtain ⟨q5, q6, q7, q8, q9⟩ :=
    quantumBlocks_inj a5 a6 a7 a8 a9 b5 b6 b7 b8 b9 ua5 ua6 ua7 ua8 ua9 vb5 vb6 vb7 vb8 vb9
      (encodeChar_inj _ _ e8) (encodeChar_inj _ _ e9) (encodeChar_inj _ _ e10) (encodeChar_inj _ _ e11) (encodeChar_inj _ _ e12) (encodeChar_inj _ _ e13) (encodeChar_inj _ _ e14) (encodeChar_inj _ _ e15)
  obtain ⟨q10, q11, q12, q13, q14⟩ :=
    quantumBlocks_inj a10 a11 a12 a13 a14 b10 b11 b12 b13 b14 ua10 ua11 ua12 ua13 ua14 vb10 vb11 vb12 vb13 vb14
      (encodeChar_inj _ _ e16) (encodeChar_inj _ _ e17) (encodeChar_inj _ _ e18) (encodeChar_inj _ _ e19) (encodeChar_inj _ _ e20) (encodeChar_inj _ _ e21) (encodeChar_inj _ _ e22) (encodeChar_inj _ _ e23)
  have q15 := lastQuantum_inj a15 b15 ua15 vb15 (encodeChar_inj _ _ e24) (encodeChar_inj _ _ e25)
  subst q0 q1 q2 q3 q4 q5 q6 q7 q8 q9 q10 q11 q12 q13 q14 q15
  rfl

theorem NewID_truncation_injective_witness :
    sampleUUID.length = 16 ∧ (∀ b ∈ sampleUUID, b < 256) ∧
    (base32Encode sampleUUID).length = 32 ∧
    (base32Encode sampleUUID).drop 26 = List.replicate 6 '=' ∧
    (NewID sampleUUID = NewID sampleUUID → sampleUUID = sampleUUID) :=
  ⟨rfl, by decide,
    NewID_truncation_injective sampleUUID sampleUUID rfl rfl (by decide) (by decide)⟩

/-! ## Claims on the isolation of users -/

theorem getBookmarksKey_injective (u v : String)
    (h : getBookmarksKey u = getBookmarksKey v) : u = v := by
  have h2 := congrArg String.data h
  simp only [getBookmarksKey, String.data_append] at h2
  exact String.ext (List.append_cancel_left h2)

theorem getLabelsKey_injective (u v : String)
    (h : getLabelsKey u = getLabelsKey v) : u = v := by
  have h2 := congrArg String.data h
  simp only [getLabelsKey, String.data_append] at h2
  exact String.ext (List.append_cancel_left h2)

theorem getBookmarksKey_ne_getLabelsKey (u v : String) :
    getBookmarksKey u ≠ getLabelsKey v := by
  intro h
  have h2 := congrArg String.data h
  simp [getBookmarksKey, getLabelsKey, StoreBookmarksKey, StoreLabelsKey,
    String.data_append] at h2

theorem KVSet_setKV (w : World) (key k : String) (v : Option Blob) (value : Blob)
    (hk : k ≠ key) :
    (w.setKV k v).KVSet key value = ((w.KVSet key value).1, (w.KVSet key value).2.setKV k v) := by
  unfold World.KVSet World.setKV
  cases w.setErr key with
  | some e => rfl
  | none =>
    simp only [Prod.mk.injEq, true_and]
    congr 1
    funext x
    by_cases h1 : x = key
    · subst h1
      simp [Ne.symm hk]
    · simp [h1]

theorem getBookmarks_setKV (w : World) (userID k : String) (v : Option Blob)
    (hk : k ≠ getBookmarksKey userID) :
    getBookmarks (w.setKV k v) userID = getBookmarks w userID := by
  simp [getBookmarks, World.KVGet, World.setKV, Ne.symm hk]

theorem storeBookmarks_setKV (w : World) (userID k : String) (v : Option Blob)
    (bmarks : Bookmarks) (hk : k ≠ getBookmarksKey userID) :
    storeBookmarks (w.setKV k v) userID bmarks
      = ((storeBookmarks w userID bmarks).1, (storeBookmarks w userID bmarks).2.setKV k v) := by
  unfold storeBookmarks
  simp only []
  rw [KVSet_setKV w _ k v _ hk]
  rcases w.KVSet (getBookmarksKey userID) (Blob.bookmarks bmarks) with ⟨_ | e, w1⟩ <;> rfl

theorem updateTimes_setKV (b : Bookmarks) (w : World) (bmarkID k : String) (v : Option Blob) :
    b.updateTimes (w.setKV k v) bmarkID
      = (b.updateTimes w bmarkID).map fun r => (r.1, r.2.setKV k v) := by
  unfold Bookmarks.updateTimes
  cases b.get bmarkID with
  | none => rfl
  | some bmark =>
    by_cases hc : bmark.CreateAt = 0 <;> simp [hc, World.GetMillis, World.setKV]

theorem addBookmark_setKV (w : World) (userID k : String) (v : Option Blob)
    (bmark : Bookmark) (hk : k ≠ getBookmarksKey userID) :
    addBookmark (w.setKV k v) userID bmark
      = ((addBookmark w userID bmark).1, (addBookmark w userID bmark).2.setKV k v) := by
  have hg := getBookmarks_setKV w userID k v hk
  rcases hgb : getBookmarks w userID with ⟨_ | b0, _ | err⟩
  · rw [hgb] at hg
    by_cases hlen : NewBookmarks.ByID.entries.length = 0
    · simp only [addBookmark, hg, hgb, hlen, if_true]
      rw [storeBookmarks_setKV w userID k v _ hk]
      rcases storeBookmarks w userID (NewBookmarks.add bmark) with ⟨_ | e, w1⟩ <;> rfl
    · rcases hex : NewBookmarks.exists bmark.PostID with ⟨o, _ | _⟩
      · simp only [addBookmark, hg, hgb, hlen, if_false, hex]
        rw [storeBookmarks_setKV w userID k v _ hk]
        rcases storeBookmarks w userID (NewBookmarks.add bmark) with ⟨_ | e, w1⟩ <;> rfl
      · simp only [addBookmark, hg, hgb, hlen, if_false, hex, updateTimes_setKV]
        rcases NewBookmarks.updateTimes w bmark.PostID with _ | ⟨b1, w1⟩
        · rfl
        · simp only [Option.map]
          rcases b1.updateLabels bmark with _ | b2
          · rfl
          · simp only []
            rw [storeBookmarks_setKV w1 userID k v _ hk]
            rcases storeBookmarks w1 userID b2 with ⟨_ | e, w2⟩ <;> rfl
  · rw [hgb] at hg
    simp only [addBookmark, hg, hgb]
  · rw [hgb] at hg
    by_cases hlen : b0.ByID.entries.length = 0
    · simp only [addBookmark, hg, hgb, hlen, if_true]
      rw [storeBookmarks_setKV w userID k v _ hk]
      rcases storeBookmarks w userID (b0.add bmark) with ⟨_ | e, w1⟩ <;> rfl
    · rcases hex : b0.exists bmark.PostID with ⟨o, _ | _⟩
      · simp only [addBookmark, hg, hgb, hlen, if_false, hex]
        rw [storeBookmarks_setKV w userID k v _ hk]
        rcases storeBookmarks w userID (b0.add bmark) with ⟨_ | e, w1⟩ <;> rfl
      · simp only [addBookmark, hg, hgb, hlen, if_false, hex, updateTimes_setKV]
        rcases b0.updateTimes w bmark.PostID with _ | ⟨b1, w1⟩
        · rfl
        · simp only [Option.map]
          rcases b1.updateLabels bmark with _ | b2
          · rfl
          · simp only []
            rw [storeBookmarks_setKV w1 userID k v _ hk]
            rcases storeBookmarks w1 userID b2 with ⟨_ | e, w2⟩ <;> rfl
  · rw [hgb] at hg
    simp only [addBookmark, hg, hgb]

theorem deleteBookmark_setKV (w : World) (userID k : String) (v : Option Blob)
    (bmarkID : String) (hk : k ≠ getBookmarksKey userID) :
    deleteBookmark (w.setKV k v) userID bmarkID
      = ((deleteBookmark w userID bmarkID).1, (deleteBookmark w userID bmarkID).2.setKV k v) := by
  have hg := getBookmarks_setKV w userID k v hk
  rcases hgb : getBookmarks w userID with ⟨_ | bmarks, _ | err⟩
  · rw [hgb] at hg
    simp only [deleteBookmark, hg, hgb]
  · rw [hgb] at hg
    simp only [deleteBookmark, hg, hgb]
  · rw [hgb] at hg
    rcases hex : bmarks.exists bmarkID with ⟨o, _ | _⟩
    · simp only [deleteBookmark, hg, hgb, hex]
    · simp only [deleteBookmark, hg, hgb, hex]
      rw [storeBookmarks_setKV w userID k v _ hk]
  · rw [hgb] at hg
    simp only [deleteBookmark, hg, hgb]


theorem setKV_self (w : World) (k : String) : w.setKV k (w.kv k) = w := by
  unfold World.setKV
  have : (fun x => if x = k then w.kv k else w.kv x) = w.kv := by
    funext x
    by_cases h : x = k
    · simp [h]
    · simp [h]
  rw [this]

theorem addBookmark_frame (w : World) (userID k : String) (bmark : Bookmark)
    (hk : k ≠ getBookmarksKey userID) :
    (addBookmark w userID bmark).2.kv k = w.kv k := by
  have h := addBookmark_setKV w userID k (w.kv k) bmark hk
  rw [setKV_self] at h
  have h2 := congrArg (fun r => r.2.kv k) h
  simp only [World.setKV, if_true] at h2
  exact h2

theorem deleteBookmark_frame (w : World) (userID k bmarkID : String)
    (hk : k ≠ getBookmarksKey userID) :
    (deleteBookmark w userID bmarkID).2.kv k = w.kv k := by
  have h := deleteBookmark_setKV w userID k (w.kv k) bmarkID hk
  rw [setKV_self] at h
  have h2 := congrArg (fun r => r.2.kv k) h
  simp only [World.setKV, if_true] at h2
  exact h2

/-- C18: the two key functions are injective in the user and never produce the same key;
every bookmark operation for user `u` commutes with any change of another entry
of the KV store (it neither reads nor writes it); hence an operation for `u`
leaves the bookmark entry of every other user `v` and the label entry of every
user, `u` included, as they were. -/
theorem user_isolation (w : World) (u v : String) (bmark : Bookmark) (bmarkID : String)
    (huv : u ≠ v) :
    (∀ a b, getBookmarksKey a = getBookmarksKey b → a = b) ∧
    (∀ a b, getLabelsKey a = getLabelsKey b → a = b) ∧
    (∀ a b, getBookmarksKey a ≠ getLabelsKey b) ∧
    (∀ k x, k ≠ getBookmarksKey u →
      getBookmarks (w.setKV k x) u = getBookmarks w u ∧
      addBookmark (w.setKV k x) u bmark
        = ((addBookmark w u bmark).1, (addBookmark w u bmark).2.setKV k x) ∧
      deleteBookmark (w.setKV k x) u bmarkID
        = ((deleteBookmark w u bmarkID).1, (deleteBookmark w u bmarkID).2.setKV k x)) ∧
    (addBookmark w u bmark).2.kv (getBookmarksKey v) = w.kv (getBookmarksKey v) ∧
    (deleteBookmark w u bmarkID).2.kv (getBookmarksKey v) = w.kv (getBookmarksKey v) ∧
    (∀ x, (addBookmark w u bmark).2.kv (getLabelsKey x) = w.kv (getLabelsKey x)) ∧
    (∀ x, (deleteBookmark w u bmarkID).2.kv (getLabelsKey x) = w.kv (getLabelsKey x)) := by
  have hvu : getBookmarksKey v ≠ getBookmarksKey u :=
    fun h => huv (getBookmarksKey_injective v u h).symm
  have hlab : ∀ x, getLabelsKey x ≠ getBookmarksKey u :=
    fun x h => getBookmarksKey_ne_getLabelsKey u x h.symm
  refine ⟨getBookmarksKey_injective, getLabelsKey_injective, getBookmarksKey_ne_getLabelsKey,
    ?_, addBookmark_frame w u _ bmark hvu, deleteBookmark_frame w u _ bmarkID hvu,
    fun x => addBookmark_frame w u _ bmark (hlab x),
    fun x => deleteBookmark_frame w u _ bmarkID (hlab x)⟩
  intro k x hk
  exact ⟨getBookmarks_setKV w u k x hk, addBookmark_setKV w u k x bmark hk,
    deleteBookmark_setKV w u k x bmarkID hk⟩

theorem user_isolation_witness :
    "u" ≠ "v" ∧
    (addBookmark worldThree "u" bookmarkB).2.kv (getBookmarksKey "v")
      = worldThree.kv (getBookmarksKey "v") ∧
    (deleteBookmark worldThree "u" "A").2.kv (getBookmarksKey "v")
      = worldThree.kv (getBookmarksKey "v") ∧
    (addBookmark worldThree "u" bookmarkB).2.kv (getLabelsKey "u")
      = worldThree.kv (getLabelsKey "u") ∧
    (deleteBookmark worldThree "u" "A").2.kv (getLabelsKey "u")
      = worldThree.kv (getLabelsKey "u") ∧
    getBookmarks (worldThree.setKV "bookmarks_v" none) "u" = getBookmarks worldThree "u" :=
  have h := user_isolation worldThree "u" "v" bookmarkB "A" (by decide)
  ⟨by decide, h.2.2.2.2.1, h.2.2.2.2.2.1, h.2.2.2.2.2.2.1 "u", h.2.2.2.2.2.2.2 "u",
    (h.2.2.2.1 "bookmarks_v" none (by decide)).1⟩

/-! ## Claims on the key of a bookmark -/

theorem mem_kreplace {V : Type} (a : String) (b : V) :
    ∀ (l : List (Sigma fun _ : String => V)) (e : Sigma fun _ : String => V),
      e ∈ List.kreplace a b l → e ∈ l ∨ e = ⟨a, b⟩
  | [], e, h => by simp [List.kreplace] at h
  | ⟨k, v⟩ :: l, e, h => by
    by_cases hk : a = k
    · subst hk
      simp only [List.kreplace] at h
      rw [List.lookmap_cons_some (b := ⟨a, b⟩) _ _ (by simp)] at h
      rcases List.mem_cons.1 h with h1 | h1
      · exact Or.inr h1
      · exact Or.inl (List.mem_cons_of_mem _ h1)
    · simp only [List.kreplace] at h
      rw [List.lookmap_cons_none _ _ (by simp [hk])] at h
      rcases List.mem_cons.1 h with h1 | h1
      · exact Or.inl (by rw [h1]; exact List.mem_cons_self _ _)
      · have ih := mem_kreplace a b l e (by simpa only [List.kreplace] using h1)
        rcases ih with h2 | h2
        · exact Or.inl (List.mem_cons_of_mem _ h2)
        · exact Or.inr h2

theorem keysArePostIDs_lookup (b : Bookmarks) (h : b.keysArePostIDs) (k : String)
    (bmark : Bookmark) (hl : b.ByID.lookup k = some bmark) : bmark.PostID = k :=
  h ⟨k, bmark⟩ (AList.mem_lookup_iff.1 hl)

theorem keysArePostIDs_replace (b : Bookmarks) (h : b.keysArePostIDs) (k : String)
    (bmark : Bookmark) (hp : bmark.PostID = k) :
    (Bookmarks.mk (b.ByID.replace k bmark)).keysArePostIDs := by
  intro e he
  rcases mem_kreplace k bmark b.ByID.entries e he with h1 | h1
  · exact h e h1
  · rw [h1]; exact hp

theorem keysArePostIDs_step (b b1 : Bookmarks) (s : Step) (h : b.keysArePostIDs)
    (hs : s.apply b = some b1) : b1.keysArePostIDs := by
  cases s with
  | add bmark =>
    simp only [Step.apply, Option.some.injEq] at hs
    subst hs
    intro e he
    simp only [Bookmarks.add, AList.insert, List.kinsert_def, List.mem_cons] at he
    rcases he with h1 | h1
    · rw [h1]
    · exact h e ((List.kerase_sublist _ _).subset h1)
  | delete bmarkID =>
    simp only [Step.apply, Option.some.injEq] at hs
    subst hs
    intro e he
    exact h e ((List.kerase_sublist _ _).subset he)
  | updateTimes w bmarkID =>
    simp only [Step.apply, Bookmarks.updateTimes, Bookmarks.get] at hs
    cases hl : b.ByID.lookup bmarkID with
    | none => simp [hl] at hs
    | some bmark =>
      have hp := keysArePostIDs_lookup b h bmarkID bmark hl
      simp only [hl, Option.map, Option.some.injEq] at hs
      subst hs
      apply keysArePostIDs_replace b h
      by_cases hc : bmark.CreateAt = 0 <;> simp [hc, hp]
  | updateLabels bmark =>
    simp only [Step.apply, Bookmarks.updateLabels, Bookmarks.get] at hs
    cases hl : b.ByID.lookup bmark.PostID with
    | none => simp [hl] at hs
    | some bmarkOrig =>
      have hp := keysArePostIDs_lookup b h bmark.PostID bmarkOrig hl
      simp only [hl, Option.some.injEq] at hs
      subst hs
      exact keysArePostIDs_replace b h _ _ hp

theorem keysArePostIDs_runSteps :
    ∀ (steps : List Step) (b b1 : Bookmarks), b.keysArePostIDs →
      runSteps steps b = some b1 → b1.keysArePostIDs
  | [], b, b1, h, hr => by
    simp only [runSteps, Option.some.injEq] at hr
    subst hr
    exact h
  | s :: rest, b, b1, h, hr => by
    simp only [runSteps] at hr
    cases hs : s.apply b with
    | none => simp [hs] at hr
    | some b2 =>
      simp only [hs] at hr
      exact keysArePostIDs_runSteps rest b2 b1 (keysArePostIDs_step b b2 s h hs) hr

/-- The collection that a successful addBookmark returns is the loaded one after
an add step, or after an updateTimes step and an updateLabels step. -/
theorem addBookmark_steps (w : World) (userID : String) (bmark : Bookmark)
    (stored : Option Bookmarks) (C2 : Bookmarks)
    (hread : getBookmarks w userID = (stored, none))
    (hok : (addBookmark w userID bmark).1 = Ret.ret (some C2) none) :
    runSteps [Step.add bmark] (stored.getD NewBookmarks) = some C2 ∨
    runSteps [Step.updateTimes w bmark.PostID, Step.updateLabels bmark]
      (stored.getD NewBookmarks) = some C2 := by
  rcases stored with _ | b0
  · simp only [Option.getD]
    by_cases hlen : NewBookmarks.ByID.entries.length = 0
    · simp only [addBookmark, hread, hlen, if_true] at hok
      rcases hs : storeBookmarks w userID (NewBookmarks.add bmark) with ⟨_ | e, w1⟩
      · simp only [hs, Ret.ret.injEq, Option.some.injEq, and_true] at hok
        exact Or.inl (by simp [runSteps, Step.apply, hok])
      · simp [hs] at hok
    · rcases hex : NewBookmarks.exists bmark.PostID with ⟨o, _ | _⟩
      · simp only [addBookmark, hread, hlen, if_false, hex] at hok
        rcases hs : storeBookmarks w userID (NewBookmarks.add bmark) with ⟨_ | e, w1⟩
        · simp only [hs, Ret.ret.injEq, Option.some.injEq, and_true] at hok
          exact Or.inl (by simp [runSteps, Step.apply, hok])
        · simp [hs] at hok
      · simp only [addBookmark, hread, hlen, if_false, hex] at hok
        rcases hut : NewBookmarks.updateTimes w bmark.PostID with _ | ⟨b1, w1⟩
        · simp [hut] at hok
        · simp only [hut] at hok
          rcases hul : b1.updateLabels bmark with _ | b2
          · simp [hul] at hok
          · simp only [hul] at hok
            rcases hs : storeBookmarks w1 userID b2 with ⟨_ | e, w2⟩
            · simp only [hs, Ret.ret.injEq, Option.some.injEq, and_true] at hok
              exact Or.inr (by simp [runSteps, Step.apply, hut, hul, hok])
            · simp [hs] at hok
  · simp only [Option.getD]
    by_cases hlen : b0.ByID.entries.length = 0
    · simp only [addBookmark, hread, hlen, if_true] at hok
      rcases hs : storeBookmarks w userID (b0.add bmark) with ⟨_ | e, w1⟩
      · simp only [hs, Ret.ret.injEq, Option.some.injEq, and_true] at hok
        exact Or.inl (by simp [runSteps, Step.apply, hok])
      · simp [hs] at hok
    · rcases hex : b0.exists bmark.PostID with ⟨o, _ | _⟩
      · simp only [addBookmark, hread, hlen, if_false, hex] at hok
        rcases hs : storeBookmarks w userID (b0.add bmark) with ⟨_ | e, w1⟩
        · simp only [hs, Ret.ret.injEq, Option.some.injEq, and_true] at hok
          exact Or.inl (by simp [runSteps, Step.apply, hok])
        · simp [hs] at hok
      · simp only [addBookmark, hread, hlen, if_false, hex] at hok
        rcases hut : b0.updateTimes w bmark.PostID with _ | ⟨b1, w1⟩
        · simp [hut] at hok
        · simp only [hut] at hok
          rcases hul : b1.updateLabels bmark with _ | b2
          · simp [hul] at hok
          · simp only [hul] at hok
            rcases hs : storeBookmarks w1 userID b2 with ⟨_ | e, w2⟩
            · simp only [hs, Ret.ret.injEq, Option.some.injEq, and_true] at hok
              exact Or.inr (by simp [runSteps, Step.apply, hut, hul, hok])
            · simp [hs] at hok

/-- The collection that deleteBookmark writes is the loaded one after a delete
step. -/
theorem deleteBookmark_steps (w : World) (userID bmarkID : String) (C : Bookmarks)
    (bmark : Bookmark)
    (hread : getBookmarks w userID = (some C, none))
    (hex : C.ByID.lookup bmarkID = some bmark) :
    ∃ C2, runSteps [Step.delete bmarkID] C = some C2 ∧
      (deleteBookmark w userID bmarkID).2 = (storeBookmarks w userID C2).2 :=
  ⟨C.delete bmarkID, rfl, by rw [deleteBookmark_found_eq w userID bmarkID C bmark hread hex]⟩

theorem findByPostID_eq_lookup (bmarkID : String) :
    ∀ entries : List (Sigma fun _ : String => Bookmark),
      (∀ e ∈ entries, e.2.PostID = e.1) →
      findByPostID bmarkID entries = entries.dlookup bmarkID
  | [], _ => rfl
  | ⟨k, v⟩ :: rest, h => by
    have hk : v.PostID = k := h ⟨k, v⟩ (List.mem_cons_self _ _)
    have ih := findByPostID_eq_lookup bmarkID rest
      (fun e he => h e (List.mem_cons_of_mem _ he))
    by_cases hb : bmarkID = k
    · subst hb
      simp [findByPostID, hk, List.dlookup_cons_eq]
    · have hne : ¬ v.PostID = bmarkID := fun h2 => hb (by rw [← h2, hk])
      rw [List.dlookup_cons_ne _ _ hb]
      simp only [findByPostID, hne, if_false]
      exact ih

/-- C21: every collection obtained from the empty one by add, delete, updateTimes and
updateLabels steps stores each bookmark under its own PostID; and on a stored
collection with that property getBookmark returns, without error, exactly the
bookmark stored under a key that is present. -/
theorem key_identity_invariant :
    (∀ (steps : List Step) (C : Bookmarks),
      runSteps steps NewBookmarks = some C → ∀ e ∈ C.ByID.entries, e.2.PostID = e.1) ∧
    (∀ (w : World) (userID bmarkID : String) (C : Bookmarks) (bmark : Bookmark),
      getBookmarks w userID = (some C, none) →
      (∀ e ∈ C.ByID.entries, e.2.PostID = e.1) →
      C.ByID.lookup bmarkID = some bmark →
      getBookmark w userID bmarkID = Ret.ret (some bmark) none) := by
  constructor
  · intro steps C hr
    exact keysArePostIDs_runSteps steps NewBookmarks C (by intro e he; cases he) hr
  · intro w userID bmarkID C bmark hread hkey hl
    have hf : findByPostID bmarkID C.ByID.entries = some bmark := by
      rw [findByPostID_eq_lookup bmarkID _ hkey]
      exact hl
    simp [getBookmark, hread, Bookmarks.exists, hl, hf]

theorem key_identity_invariant_witness :
    runSteps sampleSteps NewBookmarks = some afterSampleSteps ∧
    (∀ e ∈ afterSampleSteps.ByID.entries, e.2.PostID = e.1) ∧
    getBookmarks worldThree "u" = (some threeBookmarks, none) ∧
    (∀ e ∈ threeBookmarks.ByID.entries, e.2.PostID = e.1) ∧
    threeBookmarks.ByID.lookup "A" = some labelledA ∧
    getBookmark worldThree "u" "A" = Ret.ret (some labelledA) none :=
  ⟨rfl, key_identity_invariant.1 sampleSteps afterSampleSteps rfl, rfl, by decide, by decide,
    key_identity_invariant.2 worldThree "u" "A" threeBookmarks labelledA rfl (by decide)
      (by decide)⟩

end BookmarksPlugin
